import Mathlib

/-!
# go-majordomo: the standard service and its confidants

A shallow embedding of `standard/service.go` (the scheme registry and the
`Fetch` dispatcher), of `errors.go`, of the confidant interface and of the five
confidants under `confidants/`, with the properties of the dispatcher and of the
confidants proved over it.

Modelling conventions.

* A Go `string` is a finite sequence of bytes: `GoString = List UInt8`.
  `str` turns a Lean string literal into its UTF-8 bytes.
* A Go `[]byte` is `Option (List UInt8)`: `none` is the nil slice.
* A Go `error` is `Option Error`: `none` is the nil error.  The three
  package-level sentinels of `errors.go` are three distinct constructors, so
  that identity of error values (not equality of messages) is what `=` means.
* A Go `map[string]Confidant` is a function `GoString → Option Confidant`.
* Confidants are arbitrary stateful objects: their two methods are functions
  over an arbitrary world state `W`.  Every invocation of a confidant method
  made by the service is also appended to a call log.
-/

namespace Majordomo

/-- A Go string: a sequence of bytes. -/
abbrev GoString := List UInt8

/-- The bytes of a string literal (its UTF-8 encoding, as in Go source text). -/
def str (s : String) : GoString := s.data.flatMap String.utf8EncodeChar

/-- A Go byte slice; `none` is the nil slice. -/
abbrev Bytes := Option (List UInt8)

/-- Go error values.  `ErrNotFound`, `ErrURLInvalid` and `ErrSchemeUnknown` are
the three sentinels declared in `errors.go`; `other` stands for any error value
created elsewhere (`errors.New`, `fmt.Errorf`, library errors), `wrap` for
`errors.Wrap(cause, msg)`. -/
inductive Error where
  | ErrNotFound
  | ErrURLInvalid
  | ErrSchemeUnknown
  | other (msg : GoString)
  | wrap (cause : Error) (msg : GoString)
deriving DecidableEq

/-- The message of an error (`err.Error()`). -/
def Error.text : Error → GoString
  | .ErrNotFound => str "key not known"
  | .ErrURLInvalid => str "supplied URL is invalid"
  | .ErrSchemeUnknown => str "no confidants registered to handle that scheme"
  | .other msg => msg
  | .wrap cause msg => msg ++ str ": " ++ cause.text

deriving instance DecidableEq for Except

/-- The user-information part of a URL (`url.Userinfo`). -/
structure Userinfo where
  username : GoString
  password : GoString
  passwordSet : Bool
deriving DecidableEq

/-- The fields of Go's `url.URL`. -/
structure URL where
  Scheme : GoString := []
  Opaque : GoString := []
  User : Option Userinfo := none
  Host : GoString := []
  Path : GoString := []
  RawPath : GoString := []
  OmitHost : Bool := false
  ForceQuery : Bool := false
  RawQuery : GoString := []
  Fragment : GoString := []
  RawFragment : GoString := []
deriving DecidableEq

/-- The context keys the confidants of this repository look up
(`confidants/http/service.go`).  In the code a key is a pointer to an empty
struct of one of six types, `&CACert{}` and so on; a lookup finds the value
stored under a key of the same type. -/
inductive CtxKey where
  | CACert | ClientCert | ClientKey | HTTPMethod | MIMEType | Body
deriving DecidableEq

/-- A value stored in a context: a byte slice or a string. -/
inductive CtxValue where
  | bytes (b : List UInt8)
  | string (s : GoString)
deriving DecidableEq

/-- A `context.Context`, as the chain of key/value pairs built by
`context.WithValue`, innermost first. -/
structure Context where
  values : List (CtxKey × CtxValue) := []
deriving DecidableEq

/-- The lookup `ctx.Value(key)`: the innermost binding of the key. -/
def Context.Value (ctx : Context) (key : CtxKey) : Option CtxValue :=
  (ctx.values.find? (fun kv => kv.1 = key)).map Prod.snd

/-- The interface `majordomo.Confidant`: two methods, each of which may read
and change the world `W` (files, network, the confidant's own fields). -/
structure Confidant (W : Type) where
  SupportedURLSchemes : Context → W → (List GoString × Option Error) × W
  Fetch : Context → URL → W → (Bytes × Option Error) × W

/-- One invocation of a confidant method, with the arguments it received. -/
inductive Call (W : Type) where
  | SupportedURLSchemes (c : Confidant W) (ctx : Context)
  | Fetch (c : Confidant W) (ctx : Context) (url : URL)

/-- Everything outside the service: the state the confidants act on, and the
log of the confidant invocations made so far (oldest first). -/
structure World (W : Type) where
  state : W
  calls : List (Call W)

/-- Invoke `confidant.SupportedURLSchemes(ctx)`. -/
def callSupportedURLSchemes {W : Type} (c : Confidant W) (ctx : Context) (w : World W) :
    (List GoString × Option Error) × World W :=
  let r := c.SupportedURLSchemes ctx w.state
  (r.1, { state := r.2, calls := w.calls ++ [Call.SupportedURLSchemes c ctx] })

/-- Invoke `confidant.Fetch(ctx, url)`. -/
def callFetch {W : Type} (c : Confidant W) (ctx : Context) (u : URL) (w : World W) :
    (Bytes × Option Error) × World W :=
  let r := c.Fetch ctx u w.state
  (r.1, { state := r.2, calls := w.calls ++ [Call.Fetch c ctx u] })

/-- The test `strings.Contains(s, substr)`. -/
def Contains (s substr : GoString) : Bool :=
  s.tails.any (fun t => substr.isPrefixOf t)

/-- The struct `standard.Service`: the scheme-to-confidant map. -/
structure Service (W : Type) where
  confidants : GoString → Option (Confidant W)

/-- The assignment `m[scheme] = confidant` on a Go map. -/
def mapSet {W : Type} (m : GoString → Option (Confidant W)) (scheme : GoString)
    (confidant : Confidant W) : GoString → Option (Confidant W) :=
  fun k => if k = scheme then some confidant else m k

/-- The service returned by `standard.New`: an empty map. -/
def New (W : Type) : Service W := { confidants := fun _ => none }

/-- The loop of `RegisterConfidant` over the schemes the confidant advertised:
the first scheme found bound stops the loop with an error, every scheme before
it has been assigned. -/
def registerSchemes {W : Type} (confidant : Confidant W) :
    List GoString → (GoString → Option (Confidant W)) →
      Option Error × (GoString → Option (Confidant W))
  | [], m => (none, m)
  | scheme :: rest, m =>
    match m scheme with
    | some _ =>
      (some (Error.other (str "scheme " ++ scheme ++
        str " already registered by another confidant")), m)
    | none => registerSchemes confidant rest (mapSet m scheme confidant)

/-- The method `Service.RegisterConfidant(ctx, confidant)`: the returned error,
the service afterwards and the world afterwards. -/
def Service.RegisterConfidant {W : Type} (s : Service W) (ctx : Context)
    (confidant : Confidant W) (w : World W) : Option Error × Service W × World W :=
  let r := callSupportedURLSchemes confidant ctx w
  match r.1.2 with
  | some err =>
    (some (Error.wrap err (str "failed to obtain supported URL schemes from confidant")),
      s, r.2)
  | none =>
    let l := registerSchemes confidant r.1.1 s.confidants
    (l.1, { confidants := l.2 }, r.2)

/-- The method `Service.Fetch(ctx, req)`.  `parse` is `url.Parse` of the Go
standard library.  The method has no assignment to the receiver, so only the
returned pair and the world afterwards are results. -/
def Service.Fetch {W : Type} (parse : GoString → Except Error URL) (s : Service W)
    (ctx : Context) (req : GoString) (w : World W) : (Bytes × Option Error) × World W :=
  if req = [] then
    ((none, some Error.ErrNotFound), w)
  else if !Contains req (str "://") then
    ((some req, none), w)
  else
    match parse req with
    | .error _ => ((none, some Error.ErrURLInvalid), w)
    | .ok url =>
      if url.Scheme = [] then
        ((none, some Error.ErrURLInvalid), w)
      else
        match s.confidants url.Scheme with
        | none => ((none, some Error.ErrSchemeUnknown), w)
        | some confidant =>
          let r := callFetch confidant ctx url w
          match r.1.2 with
          | some err => ((none, some err), r.2)
          | none => ((r.1.1, none), r.2)

/-! ## The Go standard library: `net/url`

`url.Parse` is not part of the repository.  `Service.Fetch` above takes it as a
parameter, and the general theorems hold for every parser.  The definitions
below follow the library source (as of Go 1.21) function by function, over
bytes, so that the dispatcher can be run on concrete keys.  The library's error
values are only tested against nil by `Service.Fetch`; their messages are kept
short here. -/

namespace url

/-- The test `strings.HasPrefix(s, p)`. -/
def HasPrefix (s p : GoString) : Bool := p.isPrefixOf s

/-- The test `strings.HasSuffix(s, p)`. -/
def HasSuffix (s p : GoString) : Bool := p.isSuffixOf s

/-- The index `strings.Index(s, substr)`; `none` is -1. -/
def Index (s substr : GoString) : Option Nat :=
  (List.range (s.length + 1)).find? (fun i => substr.isPrefixOf (s.drop i))

/-- The index `strings.LastIndex(s, substr)`; `none` is -1. -/
def LastIndex (s substr : GoString) : Option Nat :=
  ((List.range (s.length + 1)).filter (fun i => substr.isPrefixOf (s.drop i))).getLast?

/-- The split `strings.Cut(s, sep)`: before, after, found. -/
def Cut (s sep : GoString) : GoString × GoString × Bool :=
  match Index s sep with
  | some i => (s.take i, s.drop (i + sep.length), true)
  | none => (s, [], false)

/-- The count `strings.Count(s, substr)` for a one-byte `substr`. -/
def CountByte (s : GoString) (b : UInt8) : Nat := s.count b

/-- ASCII letters. -/
def isLetter (c : UInt8) : Bool := (97 ≤ c && c ≤ 122) || (65 ≤ c && c ≤ 90)

/-- ASCII digits. -/
def isDigit (c : UInt8) : Bool := 48 ≤ c && c ≤ 57

/-- The mapping `strings.ToLower` on a string of ASCII bytes (it is applied to
schemes only, which `getScheme` makes of ASCII letters, digits, `+`, `-`, `.`). -/
def ToLower (s : GoString) : GoString :=
  s.map (fun c => if 65 ≤ c && c ≤ 90 then c + 32 else c)

/-- The test `stringContainsCTLByte`. -/
def stringContainsCTLByte (s : GoString) : Bool := s.any (fun b => b < 32 || b == 127)

/-- The loop of `getScheme` from index `i`, with `pre` the bytes before it in
reverse: `none` is the error "missing protocol scheme". -/
def getSchemeLoop (rawURL : GoString) : GoString → GoString → Option (GoString × GoString)
  | _, [] => some ([], rawURL)
  | pre, c :: rest =>
    if isLetter c then getSchemeLoop rawURL (c :: pre) rest
    else if isDigit c || c == 43 || c == 45 || c == 46 then
      if pre = [] then some ([], rawURL) else getSchemeLoop rawURL (c :: pre) rest
    else if c == 58 then
      if pre = [] then none else some (pre.reverse, rest)
    else some ([], rawURL)

/-- The function `getScheme`: the scheme and the rest of the URL. -/
def getScheme (rawURL : GoString) : Except Error (GoString × GoString) :=
  match getSchemeLoop rawURL [] rawURL with
  | none => .error (Error.other (str "missing protocol scheme"))
  | some r => .ok r

/-- The escaping modes of `net/url`. -/
inductive encoding where
  | encodePath | encodePathSegment | encodeHost | encodeZone
  | encodeUserPassword | encodeQueryComponent | encodeFragment
deriving DecidableEq

/-- The test `ishex`. -/
def ishex (c : UInt8) : Bool :=
  (48 ≤ c && c ≤ 57) || (97 ≤ c && c ≤ 102) || (65 ≤ c && c ≤ 70)

/-- The value `unhex`. -/
def unhex (c : UInt8) : UInt8 :=
  if 48 ≤ c && c ≤ 57 then c - 48
  else if 97 ≤ c && c ≤ 102 then c - 97 + 10
  else if 65 ≤ c && c ≤ 70 then c - 65 + 10
  else 0

/-- The test `shouldEscape(c, mode)`. -/
def shouldEscape (c : UInt8) (mode : encoding) : Bool :=
  if isLetter c || isDigit c then false
  else if (mode = .encodeHost || mode = .encodeZone) &&
      [33, 36, 38, 39, 40, 41, 42, 43, 44, 59, 61, 58, 91, 93, 60, 62, 34].contains c then false
  else if [45, 95, 46, 126].contains c then false
  else if [36, 38, 43, 44, 47, 58, 59, 61, 63, 64].contains c &&
      (mode = .encodePath || mode = .encodePathSegment || mode = .encodeUserPassword ||
        mode = .encodeQueryComponent || mode = .encodeFragment) then
    match mode with
    | .encodePath => c == 63
    | .encodePathSegment => c == 47 || c == 59 || c == 44 || c == 63
    | .encodeUserPassword => c == 64 || c == 47 || c == 63 || c == 58
    | .encodeQueryComponent => true
    | _ => false
  else if mode = .encodeFragment && [33, 40, 41, 42].contains c then false
  else true

/-- The error `EscapeError(s)`. -/
def EscapeError (s : GoString) : Error := Error.other (str "invalid URL escape " ++ s)

/-- The error `InvalidHostError(s)`. -/
def InvalidHostError (s : GoString) : Error :=
  Error.other (str "invalid character " ++ s ++ str " in host name")

/-- The first loop of `unescape`: the well-formedness check of the escapes;
`none` when the loop runs to the end. -/
def unescapeCheck (mode : encoding) : GoString → Option Error
  | [] => none
  | c :: rest =>
    if c = 37 then
      match rest with
      | h1 :: h2 :: rest2 =>
        if !ishex h1 || !ishex h2 then some (EscapeError ((c :: rest).take 3))
        else if mode = .encodeHost && unhex h1 < 8 && [c, h1, h2] ≠ str "%25" then
          some (EscapeError [c, h1, h2])
        else if mode = .encodeZone && [c, h1, h2] ≠ str "%25" &&
            (unhex h1 <<< 4 ||| unhex h2) ≠ 32 &&
            shouldEscape (unhex h1 <<< 4 ||| unhex h2) .encodeHost then
          some (EscapeError [c, h1, h2])
        else unescapeCheck mode rest2
      | _ => some (EscapeError ((c :: rest).take 3))
    else if c = 43 then unescapeCheck mode rest
    else if (mode = .encodeHost || mode = .encodeZone) && c < 128 &&
        shouldEscape c .encodeHost then
      some (InvalidHostError [c])
    else unescapeCheck mode rest

/-- The second loop of `unescape`: the decoding (the identity on a string with
no escape and, outside query components, no `+`). -/
def unescapeDecode (mode : encoding) : GoString → GoString
  | [] => []
  | c :: rest =>
    if c = 37 then
      match rest with
      | h1 :: h2 :: rest2 => (unhex h1 <<< 4 ||| unhex h2) :: unescapeDecode mode rest2
      | _ => []
    else if c = 43 then
      (if mode = .encodeQueryComponent then 32 else 43) :: unescapeDecode mode rest
    else c :: unescapeDecode mode rest

/-- The function `unescape(s, mode)`. -/
def unescape (s : GoString) (mode : encoding) : Except Error GoString :=
  match unescapeCheck mode s with
  | some err => .error err
  | none => .ok (unescapeDecode mode s)

/-- The digit `upperhex[n]`. -/
def upperhex (n : UInt8) : UInt8 := if n < 10 then 48 + n else 55 + n

/-- The function `escape(s, mode)`. -/
def escape (s : GoString) (mode : encoding) : GoString :=
  s.flatMap (fun c =>
    if shouldEscape c mode then
      if c = 32 && mode = .encodeQueryComponent then [43]
      else [37, upperhex (c >>> 4), upperhex (c &&& 15)]
    else [c])

/-- The test `validUserinfo`. -/
def validUserinfo (s : GoString) : Bool :=
  s.all (fun r => isLetter r || isDigit r ||
    [45, 46, 95, 58, 126, 33, 36, 38, 39, 40, 41, 42, 43, 44, 59, 61, 37, 64].contains r)

/-- The test `validOptionalPort`. -/
def validOptionalPort (port : GoString) : Bool :=
  match port with
  | [] => true
  | c :: digits => c == 58 && digits.all isDigit

/-- The error of `parseHost` for a port that is not a number. -/
def invalidPort (colonPort : GoString) : Error :=
  Error.other (str "invalid port " ++ colonPort ++ str " after host")

/-- The function `parseHost`. -/
def parseHost (host : GoString) : Except Error GoString :=
  if HasPrefix host (str "[") then
    match LastIndex host (str "]") with
    | none => .error (Error.other (str "missing ] in host"))
    | some i =>
      let colonPort := host.drop (i + 1)
      if !validOptionalPort colonPort then .error (invalidPort colonPort)
      else
        match Index (host.take i) (str "%25") with
        | some zone =>
          match unescape (host.take zone) .encodeHost with
          | .error err => .error err
          | .ok host1 =>
            match unescape ((host.take i).drop zone) .encodeZone with
            | .error err => .error err
            | .ok host2 =>
              match unescape (host.drop i) .encodeHost with
              | .error err => .error err
              | .ok host3 => .ok (host1 ++ host2 ++ host3)
        | none => unescape host .encodeHost
  else
    match LastIndex host (str ":") with
    | some i =>
      let colonPort := host.drop i
      if !validOptionalPort colonPort then .error (invalidPort colonPort)
      else unescape host .encodeHost
    | none => unescape host .encodeHost

/-- The function `parseAuthority`: the user information and the host. -/
def parseAuthority (authority : GoString) : Except Error (Option Userinfo × GoString) :=
  match LastIndex authority (str "@") with
  | none =>
    match parseHost authority with
    | .error err => .error err
    | .ok host => .ok (none, host)
  | some i =>
    match parseHost (authority.drop (i + 1)) with
    | .error err => .error err
    | .ok host =>
      let userinfo := authority.take i
      if !validUserinfo userinfo then .error (Error.other (str "net/url: invalid userinfo"))
      else if !Contains userinfo (str ":") then
        match unescape userinfo .encodeUserPassword with
        | .error err => .error err
        | .ok username =>
          .ok (some { username := username, password := [], passwordSet := false }, host)
      else
        let c := Cut userinfo (str ":")
        match unescape c.1 .encodeUserPassword with
        | .error err => .error err
        | .ok username =>
          match unescape c.2.1 .encodeUserPassword with
          | .error err => .error err
          | .ok password =>
            .ok (some { username := username, password := password, passwordSet := true },
              host)

/-- The method `setPath`. -/
def setPath (u : URL) (p : GoString) : Except Error URL :=
  match unescape p .encodePath with
  | .error err => .error err
  | .ok path =>
    .ok { u with Path := path, RawPath := if p = escape path .encodePath then [] else p }

/-- The method `setFragment`. -/
def setFragment (u : URL) (f : GoString) : Except Error URL :=
  match unescape f .encodeFragment with
  | .error err => .error err
  | .ok frag =>
    .ok { u with
      Fragment := frag, RawFragment := if f = escape frag .encodeFragment then [] else f }

/-- The function `parse(rawURL, viaRequest)` at `viaRequest = false`, which is
how `Parse` calls it. -/
def parse (rawURL : GoString) : Except Error URL :=
  if stringContainsCTLByte rawURL then
    .error (Error.other (str "net/url: invalid control character in URL"))
  else if rawURL = str "*" then .ok { Path := str "*" }
  else
    match getScheme rawURL with
    | .error err => .error err
    | .ok (scheme, rest0) =>
      let u0 : URL := { Scheme := ToLower scheme }
      let q : GoString × URL :=
        if HasSuffix rest0 (str "?") && CountByte rest0 63 == 1 then
          (rest0.take (rest0.length - 1), { u0 with ForceQuery := true })
        else
          let c := Cut rest0 (str "?")
          (c.1, { u0 with RawQuery := c.2.1 })
      let rest := q.1
      let u1 := q.2
      if !HasPrefix rest (str "/") && u1.Scheme ≠ [] then
        .ok { u1 with Opaque := rest }
      else if !HasPrefix rest (str "/") && Contains (Cut rest (str "/")).1 (str ":") then
        .error (Error.other (str "first path segment in URL cannot contain colon"))
      else if (u1.Scheme ≠ [] || !HasPrefix rest (str "///")) && HasPrefix rest (str "//") then
        let a0 := rest.drop 2
        let a : GoString × GoString :=
          match Index a0 (str "/") with
          | some i => (a0.take i, a0.drop i)
          | none => (a0, [])
        match parseAuthority a.1 with
        | .error err => .error err
        | .ok (user, host) => setPath { u1 with User := user, Host := host } a.2
      else if u1.Scheme ≠ [] && HasPrefix rest (str "/") then
        setPath { u1 with OmitHost := true } rest
      else setPath u1 rest

/-- The function `url.Parse`.  The library wraps every error in a `url.Error`
("parse", the URL, the cause). -/
def Parse (rawURL : GoString) : Except Error URL :=
  let c := Cut rawURL (str "#")
  match parse c.1 with
  | .error err => .error (Error.wrap err (str "parse " ++ c.1))
  | .ok u =>
    if c.2.1 = [] then .ok u
    else
      match setFragment u c.2.1 with
      | .error err => .error (Error.wrap err (str "parse " ++ rawURL))
      | .ok u2 => .ok u2

end url

/-! ## Fixtures

The confidants used by the repository's tests and in the concrete instances
below. -/

/-- The test double `MockConfidant` of `standard/service_test.go`: it advertises
the scheme "mock" and says hello. -/
def MockConfidant (W : Type) : Confidant W where
  SupportedURLSchemes := fun _ w => ((([str "mock"] : List GoString), none), w)
  Fetch := fun _ _ w => ((some (str "hello"), none), w)

/-- A confidant advertising the given schemes whose `Fetch` fails with the given
error; each `Fetch` adds one to a counter, the world. -/
def FailingConfidant (schemes : List GoString) (e : Error) : Confidant Nat where
  SupportedURLSchemes := fun _ w => ((schemes, none), w)
  Fetch := fun _ _ w => ((none, some e), w + 1)

/-- The confidant of the concrete instances for error pass-through: it serves
the scheme "fail" and fails with `ErrNotFound`. -/
def notFoundConfidant : Confidant Nat := FailingConfidant [str "fail"] Error.ErrNotFound

/-- A confidant advertising "b" and then "mock". -/
def bThenMock : Confidant Nat := FailingConfidant [str "b", str "mock"] Error.ErrNotFound

/-- A confidant advertising "mock" and then "b". -/
def mockThenB : Confidant Nat := FailingConfidant [str "mock", str "b"] Error.ErrNotFound

/-- The world before any call: no confidant has been invoked. -/
def World.init {W : Type} (state : W) : World W := { state := state, calls := [] }

/-- The service of `TestRegister`: a new service with `MockConfidant` registered. -/
def mockService : Service Nat :=
  ((New Nat).RegisterConfidant {} (MockConfidant Nat) (World.init 0)).2.1

/-- The service with `notFoundConfidant` registered after `MockConfidant`. -/
def failService : Service Nat :=
  (mockService.RegisterConfidant {} notFoundConfidant (World.init 0)).2.1

/-- A sequence of calls on a service, as a client makes them. -/
inductive Op (W : Type) where
  | RegisterConfidant (ctx : Context) (confidant : Confidant W)
  | Fetch (ctx : Context) (req : GoString)

/-- One call on the service: the service and the world afterwards (the values
returned to the client are dropped). -/
def step {W : Type} (parse : GoString → Except Error URL) (st : Service W × World W) :
    Op W → Service W × World W
  | .RegisterConfidant ctx confidant => (st.1.RegisterConfidant ctx confidant st.2).2
  | .Fetch ctx req => (st.1, (st.1.Fetch parse ctx req st.2).2)

/-- A sequence of calls, in order. -/
def run {W : Type} (parse : GoString → Except Error URL) (ops : List (Op W))
    (st : Service W × World W) : Service W × World W :=
  ops.foldl (step parse) st

/-! ## The confidants

Each confidant of `confidants/` is a stateless translator from a URL to a
request on something outside the program (the filesystem, an HTTP server, a
secret manager).  What is outside is a parameter of the model: a record of the
library calls the confidant makes, as functions over the world `W`. -/

/-- The function `strings.TrimPrefix(s, p)`. -/
def TrimPrefix (s p : GoString) : GoString :=
  if p.isPrefixOf s then s.drop p.length else s

namespace direct

/-- The method `SupportedURLSchemes` of the direct confidant. -/
def SupportedURLSchemes : List GoString × Option Error := ([str "direct"], none)

/-- The method `Fetch` of the direct confidant: the path minus the leading "/",
nil when nothing is left. -/
def Fetch (u : URL) : Bytes × Option Error :=
  let value := TrimPrefix u.Path (str "/")
  if value = [] then (none, none) else (some value, none)

/-- The direct confidant, as a `Confidant` over any world. -/
def Service (W : Type) : Confidant W where
  SupportedURLSchemes := fun _ w => (SupportedURLSchemes, w)
  Fetch := fun _ u w => (Fetch u, w)

end direct

namespace file

/-- What the file confidant uses of the `os` and `io/ioutil` packages:
`ioutil.ReadFile` on a filesystem `W`, and the test `os.IsNotExist` on the
errors it returns. -/
structure OS (W : Type) where
  ReadFile : W → GoString → Bytes × Option Error
  IsNotExist : Error → Bool

/-- The method `SupportedURLSchemes` of the file confidant. -/
def SupportedURLSchemes : List GoString × Option Error := ([str "file"], none)

/-- The method `Fetch` of the file confidant. -/
def Fetch {W : Type} (os : OS W) (u : URL) (fs : W) : Bytes × Option Error :=
  let r := os.ReadFile fs u.Path
  match r.2 with
  | some err =>
    if os.IsNotExist err then (none, some Error.ErrNotFound)
    else (none, some (Error.wrap err (str "failed to fetch value")))
  | none => (r.1, none)

/-- The file confidant, as a `Confidant` over the filesystem. -/
def Service {W : Type} (os : OS W) : Confidant W where
  SupportedURLSchemes := fun _ w => (SupportedURLSchemes, w)
  Fetch := fun _ u w => (Fetch os u w, w)

/-- The error of a read of a file that does not exist, in the concrete
instances. -/
def ENOENT : Error := Error.other (str "no such file or directory")

/-- The error of a read of a file that may not be read, in the concrete
instances. -/
def EACCES : Error := Error.other (str "permission denied")

/-- A filesystem for the concrete instances: one readable file "/tmp/secret-key"
holding "secret value", one unreadable file "/root/key", nothing else. -/
def testOS : OS Unit where
  ReadFile := fun _ path =>
    if path = str "/tmp/secret-key" then (some (str "secret value"), none)
    else if path = str "/root/key" then (none, some EACCES)
    else (none, some ENOENT)
  IsNotExist := fun err => err = ENOENT

end file

/-- The type assertion `ctx.Value(key).([]byte)`: the value and whether it is
there with that type. -/
def Context.bytesValue (ctx : Context) (key : CtxKey) : Option (List UInt8) :=
  match ctx.Value key with
  | some (.bytes b) => some b
  | _ => none

/-- The type assertion `ctx.Value(key).(string)`. -/
def Context.stringValue (ctx : Context) (key : CtxKey) : Option GoString :=
  match ctx.Value key with
  | some (.string v) => some v
  | _ => none

namespace http

/-- What the confidant sets of a `tls.Config`: the minimum version, the pool of
root certificates (`none`: the system's; `some pem`: a new pool to which the
PEM block was appended) and the client certificates (certificate and key). -/
structure TLSConfig where
  MinVersion : Nat
  RootCAs : Option (List UInt8)
  Certificates : List (List UInt8 × List UInt8)
deriving DecidableEq

/-- The constant `tls.VersionTLS13`. -/
def VersionTLS13 : Nat := 0x0304

/-- What the confidant sets of an `http.Request`. -/
structure Request where
  Method : GoString
  URL : URL
  Body : Option (List UInt8)
  Header : List (GoString × GoString)
deriving DecidableEq

/-- What the confidant reads of an `http.Response`: the status code, and the
data and error of `io.ReadAll(resp.Body)`. -/
structure Response where
  StatusCode : Int
  Body : List UInt8
  ReadErr : Option Error
deriving DecidableEq

/-- The pair `(resp, err)` returned by `http.Get` and `client.Do`; `resp` is
`none` for a nil response. -/
structure Outcome where
  resp : Option Response
  err : Option Error
deriving DecidableEq

/-- What the confidant uses of `net/http`, `crypto/tls` and `strings`, over the
world `W` (the network).  `Get` is `http.Get` on the default client (it receives
the URL, which the code passes as `url.String()`), `Do` is `client.Do(req)` on a
client with the given TLS configuration; both include the read of the response
body.  `X509KeyPair` and `NewRequest` give the error of `tls.X509KeyPair` and of
`http.NewRequestWithContext`. -/
structure Net (W : Type) where
  Get : URL → W → Outcome × W
  Do : TLSConfig → Request → W → Outcome × W
  X509KeyPair : List UInt8 → List UInt8 → Option Error
  NewRequest : GoString → URL → Option (List UInt8) → Option Error
  ToUpper : GoString → GoString
  ToLower : GoString → GoString

/-- The method `SupportedURLSchemes` of the HTTP confidant. -/
def SupportedURLSchemes : List GoString × Option Error := ([str "http", str "https"], none)

/-- The method `fetch`: a plain GET on the default client. -/
def fetch {W : Type} (net : Net W) (u : URL) (w : W) : (Bytes × Option Error) × W :=
  let r := net.Get u w
  match r.1.err with
  | some _ => ((none, some Error.ErrNotFound), r.2)
  | none =>
    match r.1.resp with
    | none => ((none, some Error.ErrNotFound), r.2)
    | some resp =>
      match resp.ReadErr with
      | some _ => ((none, some Error.ErrNotFound), r.2)
      | none =>
        if resp.Body.length = 0 then ((none, some Error.ErrNotFound), r.2)
        else if Int.tdiv resp.StatusCode 100 ≠ 2 then ((none, some Error.ErrNotFound), r.2)
        else ((some resp.Body, none), r.2)

/-- The method `fetchWithOptions`: a request built from the values of the
context, on a client of its own. -/
def fetchWithOptions {W : Type} (net : Net W) (ctx : Context) (u : URL) (w : W) :
    (Bytes × Option Error) × W :=
  let caCert := ctx.bytesValue .CACert
  let clientCert := ctx.bytesValue .ClientCert
  let clientKey := ctx.bytesValue .ClientKey
  let tlsConfig0 : TLSConfig :=
    { MinVersion := VersionTLS13, RootCAs := caCert, Certificates := [] }
  if clientCert.isSome && !clientKey.isSome then
    ((none, some (Error.other
      (str "both or neither of client certificate and client key must be specified"))), w)
  else
    let tlsConfig : Except Error TLSConfig :=
      match clientCert with
      | some cert =>
        match net.X509KeyPair cert (clientKey.getD []) with
        | some _ => .error (Error.other (str "invalid client certificate or key"))
        | none => .ok { tlsConfig0 with Certificates := [(cert, clientKey.getD [])] }
      | none => .ok tlsConfig0
    match tlsConfig with
    | .error e => ((none, some e), w)
    | .ok tls =>
      let httpMethod :=
        match ctx.stringValue .HTTPMethod with
        | none => str "GET"
        | some m => net.ToUpper m
      let body := ctx.bytesValue .Body
      match net.NewRequest httpMethod u body with
      | some _ => ((none, some Error.ErrNotFound), w)
      | none =>
        let header :=
          match ctx.stringValue .MIMEType with
          | some m => [(str "Content-type", net.ToLower m), (str "Accept", net.ToLower m)]
          | none => []
        let r := net.Do tls { Method := httpMethod, URL := u, Body := body, Header := header } w
        match r.1.err with
        | some _ => ((none, some Error.ErrNotFound), r.2)
        | none =>
          match r.1.resp with
          | none => ((none, some Error.ErrNotFound), r.2)
          | some resp =>
            match resp.ReadErr with
            | some _ => ((none, some Error.ErrNotFound), r.2)
            | none =>
              if resp.Body.length = 0 then ((none, some Error.ErrNotFound), r.2)
              else if Int.tdiv resp.StatusCode 100 ≠ 2 then
                ((none, some Error.ErrNotFound), r.2)
              else ((some resp.Body, none), r.2)

/-- The method `Fetch` of the HTTP confidant: the choice between the two
request paths. -/
def Fetch {W : Type} (net : Net W) (ctx : Context) (u : URL) (w : W) :
    (Bytes × Option Error) × W :=
  let clientCertExists := (ctx.bytesValue .ClientCert).isSome
  let httpMethodExists := (ctx.stringValue .HTTPMethod).isSome
  let mimeTypeExists := (ctx.stringValue .MIMEType).isSome
  let bodyExists := (ctx.bytesValue .Body).isSome
  if clientCertExists || httpMethodExists || mimeTypeExists || bodyExists then
    fetchWithOptions net ctx u w
  else fetch net u w

/-- The HTTP confidant, as a `Confidant` over the network. -/
def Service {W : Type} (net : Net W) : Confidant W where
  SupportedURLSchemes := fun _ w => (SupportedURLSchemes, w)
  Fetch := fun ctx u w => Fetch net ctx u w

/-- The classification of the outcome of a request as C16 words it: the body
with a nil error when there was no transport or read error, the body is not
empty and the status code is between 200 and 299; `ErrNotFound` otherwise. -/
def classify (o : Outcome) : Bytes × Option Error :=
  match o.err, o.resp with
  | none, some resp =>
    if resp.ReadErr = none ∧ resp.Body ≠ [] ∧ 200 ≤ resp.StatusCode ∧ resp.StatusCode ≤ 299 then
      (some resp.Body, none)
    else (none, some Error.ErrNotFound)
  | _, _ => (none, some Error.ErrNotFound)

/-- One request on the network, as a recording network logs it: a plain GET on
the default client, or a request on a client with a TLS configuration. -/
inductive NetCall where
  | Get (u : URL)
  | Do (tls : TLSConfig) (req : Request)
deriving DecidableEq

/-- A network for the concrete instances: it records every request and answers
each with status 200 and the body "response 1"; every certificate pair and every
request is well-formed. -/
def recordingNet : Net (List NetCall) where
  Get := fun u w =>
    ({ resp := some { StatusCode := 200, Body := str "response 1", ReadErr := none },
       err := none }, w ++ [NetCall.Get u])
  Do := fun tls req w =>
    ({ resp := some { StatusCode := 200, Body := str "response 1", ReadErr := none },
       err := none }, w ++ [NetCall.Do tls req])
  X509KeyPair := fun _ _ => none
  NewRequest := fun _ _ _ => none
  ToUpper := fun m => m
  ToLower := fun m => m

/-- The URL of the concrete instances: "https://example.com/secret". -/
def exampleURL : URL := { Scheme := str "https", Host := str "example.com", Path := str "/secret" }

end http

/-- The method `url.User.Username()`: empty for a URL without user
information. -/
def URL.Username (u : URL) : GoString :=
  match u.User with
  | some ui => ui.username
  | none => []

/-- The method `url.User.Password()`: the password and whether it is set. -/
def URL.Password (u : URL) : GoString × Bool :=
  match u.User with
  | some ui => (ui.password, ui.passwordSet)
  | none => ([], false)

namespace asm

/-- The credentials a session is created with: `credentials.NewStaticCredentials`,
`credentials.NewEnvCredentials`, or any other provider the caller configured. -/
inductive Credentials where
  | NewStaticCredentials (id secret token : GoString)
  | NewEnvCredentials
  | provider (name : GoString)
deriving DecidableEq

/-- The struct `asm.Service`: the configured credentials (`none`: nil) and
region. -/
structure Service where
  credentials : Option Credentials
  region : GoString
deriving DecidableEq

/-- What the confidant reads of a `GetSecretValueOutput`. -/
structure GetSecretValueOutput where
  SecretString : Option GoString
  SecretBinary : Option (List UInt8)
deriving DecidableEq

/-- What the confidant uses of the AWS SDK and of `encoding/base64`, over the
world `W`.  `NewSession` gives the error of `session.NewSession` for a region and
credentials; `GetSecretValue` is the request on a session of that region and
those credentials for a secret id; `Code` is the code of an error that is an
`awserr.Error`; `Decode` gives the decoded bytes and the error of
`base64.StdEncoding.Decode`. -/
structure AWS (W : Type) where
  NewSession : GoString → Credentials → Option Error
  GetSecretValue : GoString → Credentials → GoString → W →
    (GetSecretValueOutput × Option Error) × W
  Code : Error → Option GoString
  Decode : List UInt8 → List UInt8 × Option Error

/-- The method `SupportedURLSchemes` of the Amazon confidant. -/
def SupportedURLSchemes : List GoString × Option Error := ([str "asm"], none)

/-- The constant `secretsmanager.ErrCodeResourceNotFoundException`. -/
def ErrCodeResourceNotFoundException : GoString := str "ResourceNotFoundException"

/-- The method `Fetch` of the Amazon confidant. -/
def Fetch {W : Type} (aws : AWS W) (s : Service) (u : URL) (w : W) :
    (Bytes × Option Error) × W :=
  let host := if u.Host = [] then s.region else u.Host
  if host = [] then ((none, some (Error.other (str "no region specified"))), w)
  else if u.Path = [] then ((none, some (Error.other (str "no secret specified"))), w)
  else
    let creds :=
      if u.Password.2 then Credentials.NewStaticCredentials u.Username u.Password.1 []
      else
        match s.credentials with
        | some c => c
        | none => Credentials.NewEnvCredentials
    match aws.NewSession host creds with
    | some err =>
      ((none, some (Error.wrap err
        (str "failed to initiate session with Amazon secrets manager"))), w)
    | none =>
      let r := aws.GetSecretValue host creds (TrimPrefix u.Path (str "/")) w
      match r.1.2 with
      | some err =>
        if aws.Code err = some ErrCodeResourceNotFoundException then
          ((none, some Error.ErrNotFound), r.2)
        else ((none, some (Error.wrap err (str "failed to obtain secret"))), r.2)
      | none =>
        match r.1.1.SecretString with
        | some v => ((some v, none), r.2)
        | none =>
          match r.1.1.SecretBinary with
          | some b =>
            match (aws.Decode b).2 with
            | some err => ((none, some (Error.wrap err (str "invalid secret binary"))), r.2)
            | none => ((some (aws.Decode b).1, none), r.2)
          | none => ((none, none), r.2)

/-- The Amazon confidant, as a `Confidant` over the world. -/
def Confidant {W : Type} (aws : AWS W) (s : Service) : Majordomo.Confidant W where
  SupportedURLSchemes := fun _ w => (SupportedURLSchemes, w)
  Fetch := fun _ u w => Fetch aws s u w

/-- The credentials as C19 words them: the static pair of the URL when the URL
carries an ID and a secret, otherwise the configured credentials when set,
otherwise the environment's. -/
def claimedCredentials (s : Service) (u : URL) : Credentials :=
  if u.Username ≠ [] ∧ u.Password.2 = true then
    Credentials.NewStaticCredentials u.Username u.Password.1 []
  else
    match s.credentials with
    | some c => c
    | none => Credentials.NewEnvCredentials

/-- One request on the secrets manager, as a recording world logs it: region,
credentials and secret id. -/
structure Request where
  region : GoString
  credentials : Credentials
  SecretId : GoString
deriving DecidableEq

/-- A secrets manager for the concrete instances: it records every request and
answers each with the secret string "secret value". -/
def recordingAWS : AWS (List Request) where
  NewSession := fun _ _ => none
  GetSecretValue := fun region creds id w =>
    (({ SecretString := some (str "secret value"), SecretBinary := none }, none),
      w ++ [{ region := region, credentials := creds, SecretId := id }])
  Code := fun _ => none
  Decode := fun b => (b, none)

/-- The service of `TestOverrides`: a region and static credentials configured. -/
def configured : Service :=
  { credentials := some (Credentials.NewStaticCredentials (str "id0") (str "secret0") []),
    region := str "eu-west-1" }

end asm

namespace gsm

/-- The struct `gsm.Service`: the path of the credentials file and the
project. -/
structure Service where
  credentialsPath : GoString
  project : GoString
deriving DecidableEq

/-- What the confidant uses of the Google client library, over the world `W`:
`NewClient` with the credentials file, and `AccessSecretVersion` for a secret
name, which gives `resp.Payload.Data` and the error. -/
structure GCP (W : Type) where
  NewClient : GoString → W → Option Error × W
  AccessSecretVersion : GoString → GoString → W → (Bytes × Option Error) × W

/-- The method `SupportedURLSchemes` of the Google confidant. -/
def SupportedURLSchemes : List GoString × Option Error := ([str "gsm"], none)

/-- The method `Fetch` of the Google confidant. -/
def Fetch {W : Type} (gcp : GCP W) (s : Service) (u : URL) (w : W) :
    (Bytes × Option Error) × W :=
  let host := if u.Host = [] then s.project else u.Host
  if host = [] then ((none, some (Error.other (str "no project specified"))), w)
  else
    let path := TrimPrefix u.Path (str "/")
    if path = [] then ((none, some (Error.other (str "no secret specified"))), w)
    else
      let c := gcp.NewClient s.credentialsPath w
      match c.1 with
      | some err =>
        ((none, some (Error.wrap err (str "failed to create client connection"))), c.2)
      | none =>
        let name := str "projects/" ++ host ++ str "/secrets/" ++ path ++ str "/versions/latest"
        let r := gcp.AccessSecretVersion s.credentialsPath name c.2
        match r.1.2 with
        | some err =>
          if Contains err.text (str "it may not exist") then
            ((none, some Error.ErrNotFound), r.2)
          else ((none, some (Error.wrap err (str "failed to fetch secret"))), r.2)
        | none => ((r.1.1, none), r.2)

/-- The Google confidant, as a `Confidant` over the world. -/
def Confidant {W : Type} (gcp : GCP W) (s : Service) : Majordomo.Confidant W where
  SupportedURLSchemes := fun _ w => (SupportedURLSchemes, w)
  Fetch := fun _ u w => Fetch gcp s u w

/-- One call on the Google client library, as a recording world logs it. -/
inductive Call where
  | NewClient (credentialsPath : GoString)
  | AccessSecretVersion (name : GoString)
deriving DecidableEq

/-- A secret manager for the concrete instances: it records every call and
answers each request with "secret value". -/
def recordingGCP : GCP (List Call) where
  NewClient := fun cp w => (none, w ++ [Call.NewClient cp])
  AccessSecretVersion := fun _ name w =>
    ((some (str "secret value"), none), w ++ [Call.AccessSecretVersion name])

end gsm

/-- A byte that may occur in a scheme name after its first letter. -/
def isSchemeByte (x : UInt8) : Bool :=
  url.isLetter x || url.isDigit x || x == 43 || x == 45 || x == 46

/-- A scheme name as the URL grammar has it (RFC 3986): a letter followed by
letters, digits, "+", "-" and ".". -/
def isSchemeName (s : GoString) : Bool :=
  match s with
  | [] => false
  | c :: rest => url.isLetter c && rest.all isSchemeByte

/-- Is the operation a call of `Fetch`? -/
def Op.isFetch {W : Type} : Op W → Bool
  | .Fetch _ _ => true
  | .RegisterConfidant _ _ => false

/-- The service of the direct confidant's test: a new service with the direct
confidant registered. -/
def directService : Service Nat :=
  ((New Nat).RegisterConfidant {} (direct.Service Nat) (World.init 0)).2.1

/-- A confidant advertising "MOCK" (in capitals) that says hello. -/
def upperMockConfidant : Confidant Nat where
  SupportedURLSchemes := fun _ w => ((([str "MOCK"] : List GoString), none), w)
  Fetch := fun _ _ w => ((some (str "hello"), none), w)

/-- A new service with `upperMockConfidant` registered. -/
def upperMockService : Service Nat :=
  ((New Nat).RegisterConfidant {} upperMockConfidant (World.init 0)).2.1

/-- A confidant advertising the part "x" of the key "x:y://z". -/
def xConfidant : Confidant Nat where
  SupportedURLSchemes := fun _ w => ((([str "x"] : List GoString), none), w)
  Fetch := fun _ _ w => ((some (str "hello"), none), w)

/-- A new service with `xConfidant` registered. -/
def xService : Service Nat :=
  ((New Nat).RegisterConfidant {} xConfidant (World.init 0)).2.1

/-- A confidant advertising the scheme "a" twice. -/
def twiceConfidant : Confidant Nat := FailingConfidant [str "a", str "a"] Error.ErrNotFound

/-- A confidant advertising no scheme. -/
def noSchemeConfidant : Confidant Nat := FailingConfidant [] Error.ErrNotFound

/-- A confidant whose `SupportedURLSchemes` fails. -/
def brokenConfidant : Confidant Nat where
  SupportedURLSchemes := fun _ w => (([], some (Error.other (str "not ready"))), w)
  Fetch := fun _ _ w => ((none, some Error.ErrNotFound), w)

/-- The calls a client makes to register a list of confidants one after the
other: the errors returned, in order, and the service and world afterwards. -/
def registerAll {W : Type} (ctx : Context) :
    List (Confidant W) → Service W → World W → List (Option Error) × Service W × World W
  | [], s, w => ([], s, w)
  | c :: rest, s, w =>
    let r := s.RegisterConfidant ctx c w
    let t := registerAll ctx rest r.2.1 r.2.2
    (r.1 :: t.1, t.2)

/-- The five confidants of the repository, on one world. -/
def builtIn {W : Type} (os : file.OS W) (net : http.Net W) (aws : asm.AWS W)
    (sa : asm.Service) (gcp : gsm.GCP W) (sg : gsm.Service) : List (Confidant W) :=
  [direct.Service W, file.Service os, http.Service net, asm.Confidant aws sa,
    gsm.Confidant gcp sg]

/-- A network on which every request fails, for the concrete instances. -/
def http.offlineNet : http.Net Unit where
  Get := fun _ w => (⟨none, some (Error.other (str "no route to host"))⟩, w)
  Do := fun _ _ w => (⟨none, some (Error.other (str "no route to host"))⟩, w)
  X509KeyPair := fun _ _ => none
  NewRequest := fun _ _ _ => none
  ToUpper := fun m => m
  ToLower := fun m => m

/-- A secrets manager on which every request fails, for the concrete
instances. -/
def asm.offlineAWS : asm.AWS Unit where
  NewSession := fun _ _ => none
  GetSecretValue := fun _ _ _ w =>
    ((⟨none, none⟩, some (Error.other (str "no route to host"))), w)
  Code := fun _ => none
  Decode := fun b => (b, none)

/-- A secret manager on which no client can be created, for the concrete
instances. -/
def gsm.offlineGCP : gsm.GCP Unit where
  NewClient := fun _ w => (some (Error.other (str "no route to host")), w)
  AccessSecretVersion := fun _ _ w => ((none, some (Error.other (str "no route to host"))), w)

/-- The five confidants in the reverse of the order of `builtIn`, with nothing
reachable. -/
def builtInReversed : List (Confidant Unit) :=
  [gsm.Confidant gsm.offlineGCP ⟨[], []⟩, asm.Confidant asm.offlineAWS ⟨none, []⟩,
    http.Service http.offlineNet, file.Service file.testOS, direct.Service Unit]

/-- Does the string contain an upper-case letter, "A" to "Z"? -/
def hasUpper (s : GoString) : Bool := s.any (fun b => 65 ≤ b && b ≤ 90)

/-- A byte of a lower-cased scheme: a lower-case letter, a digit, "+", "-" or
".". -/
def isLowerSchemeByte (x : UInt8) : Bool :=
  (97 ≤ x && x ≤ 122) || url.isDigit x || x == 43 || x == 45 || x == 46

/-- The TLS configuration that the doc comment of the HTTP confidant describes
for a context: TLS 1.3 at least; the CA certificate, when there is one, as the
pool of roots; the client certificate with the client key, when both are there,
as the client certificate. -/
def http.tlsConfigOf (ctx : Context) : http.TLSConfig :=
  { MinVersion := http.VersionTLS13
    RootCAs := ctx.bytesValue .CACert
    Certificates :=
      match ctx.bytesValue .ClientCert, ctx.bytesValue .ClientKey with
      | some cert, some key => [(cert, key)]
      | _, _ => [] }

/-- The request that the doc comment of the HTTP confidant describes for a
context and a URL: the method of the context in upper case, GET when there is
none; the body of the context; the MIME type of the context, in lower case, as
the "Content-type" and "Accept" headers. -/
def http.requestOf {W : Type} (net : http.Net W) (ctx : Context) (u : URL) : http.Request :=
  { Method :=
      match ctx.stringValue .HTTPMethod with
      | none => str "GET"
      | some m => net.ToUpper m
    URL := u
    Body := ctx.bytesValue .Body
    Header :=
      match ctx.stringValue .MIMEType with
      | some m => [(str "Content-type", net.ToLower m), (str "Accept", net.ToLower m)]
      | none => [] }

/-- A network for the concrete instances that records every request and answers
each with the given outcome; every certificate pair and every request is
well-formed, and methods and MIME types are in ASCII. -/
def http.replyNet (o : http.Outcome) : http.Net (List http.NetCall) where
  Get := fun u w => (o, w ++ [http.NetCall.Get u])
  Do := fun tls req w => (o, w ++ [http.NetCall.Do tls req])
  X509KeyPair := fun _ _ => none
  NewRequest := fun _ _ _ => none
  ToUpper := fun m => m.map (fun c => if 97 ≤ c && c ≤ 122 then c - 32 else c)
  ToLower := url.ToLower

/-- A context with all six values of the HTTP confidant. -/
def http.fullContext : Context :=
  { values := [(.CACert, .bytes (str "CA")), (.ClientCert, .bytes (str "CERT")),
      (.ClientKey, .bytes (str "KEY")), (.HTTPMethod, .string (str "post")),
      (.MIMEType, .string (str "Text/Plain")), (.Body, .bytes (str "test"))] }

/-! ## The service on a heap

In the embedding above a confidant acts on a world that does not hold the
service.  In Go a confidant is an object; it may hold a pointer to the service it
is registered with and call `RegisterConfidant` from inside its own `Fetch`.
For the effect of `Fetch` on the registry the two methods of `standard/service.go`
are therefore embedded a second time, over a heap that holds the map of the
service: confidants are objects named by a reference, and their methods act on
the whole heap. -/

/-- The heap: the scheme-to-confidant map of the service, with the confidants by
reference, and the rest of the world. -/
structure Heap (W : Type) where
  confidants : GoString → Option Nat
  world : W

/-- A confidant object: its two methods may read and change the heap, the map of
the service included. -/
structure Object (W : Type) where
  SupportedURLSchemes : Context → Heap W → (List GoString × Option Error) × Heap W
  Fetch : Context → URL → Heap W → (Bytes × Option Error) × Heap W

/-- The loop of `RegisterConfidant`, on the heap. -/
def registerSchemesOnHeap {W : Type} (confidant : Nat) :
    List GoString → Heap W → Option Error × Heap W
  | [], h => (none, h)
  | scheme :: rest, h =>
    match h.confidants scheme with
    | some _ =>
      (some (Error.other (str "scheme " ++ scheme ++
        str " already registered by another confidant")), h)
    | none =>
      registerSchemesOnHeap confidant rest
        { h with confidants := fun k => if k = scheme then some confidant else h.confidants k }

/-- The method `Service.RegisterConfidant(ctx, confidant)`, on the heap;
`objects` gives the object behind each reference. -/
def RegisterConfidantOnHeap {W : Type} (objects : Nat → Object W) (ctx : Context)
    (confidant : Nat) (h : Heap W) : Option Error × Heap W :=
  let r := (objects confidant).SupportedURLSchemes ctx h
  match r.1.2 with
  | some err =>
    (some (Error.wrap err (str "failed to obtain supported URL schemes from confidant")), r.2)
  | none => registerSchemesOnHeap confidant r.1.1 r.2

/-- The method `Service.Fetch(ctx, req)`, on the heap. -/
def FetchOnHeap {W : Type} (parse : GoString → Except Error URL) (objects : Nat → Object W)
    (ctx : Context) (req : GoString) (h : Heap W) : (Bytes × Option Error) × Heap W :=
  if req = [] then
    ((none, some Error.ErrNotFound), h)
  else if !Contains req (str "://") then
    ((some req, none), h)
  else
    match parse req with
    | .error _ => ((none, some Error.ErrURLInvalid), h)
    | .ok url =>
      if url.Scheme = [] then
        ((none, some Error.ErrURLInvalid), h)
      else
        match h.confidants url.Scheme with
        | none => ((none, some Error.ErrSchemeUnknown), h)
        | some confidant =>
          let r := (objects confidant).Fetch ctx url h
          match r.1.2 with
          | some err => ((none, some err), r.2)
          | none => ((r.1.1, none), r.2)

/-- A confidant of the first embedding as an object: its methods act on the
world and leave the map of the service alone. -/
def Object.ofConfidant {W : Type} (c : Confidant W) : Object W where
  SupportedURLSchemes := fun ctx h =>
    ((c.SupportedURLSchemes ctx h.world).1, { h with world := (c.SupportedURLSchemes ctx h.world).2 })
  Fetch := fun ctx u h =>
    ((c.Fetch ctx u h.world).1, { h with world := (c.Fetch ctx u h.world).2 })

/-- The mock confidant of `standard/service_test.go` as an object. -/
def helloObject : Object Nat := Object.ofConfidant (MockConfidant Nat)

/-- A confidant that holds the service and, in its `Fetch`, registers the mock
confidant (the object with reference 1) before it answers "done".  It advertises
the scheme "re". -/
def reentrantObject : Object Nat where
  SupportedURLSchemes := fun _ h => ((([str "re"] : List GoString), none), h)
  Fetch := fun ctx _ h =>
    ((some (str "done"), none), (RegisterConfidantOnHeap (fun _ => helloObject) ctx 1 h).2)

/-- The objects of the concrete instances: reference 0 is `reentrantObject`,
every other reference is the mock confidant. -/
def heapObjects : Nat → Object Nat := fun n => if n = 0 then reentrantObject else helloObject

/-- The heap of a new service. -/
def Heap.new {W : Type} (world : W) : Heap W := { confidants := fun _ => none, world := world }

/-- The heap after `reentrantObject` was registered with a new service. -/
def reentrantHeap : Heap Nat := (RegisterConfidantOnHeap heapObjects {} 0 (Heap.new 0)).2

/-- The heap after the mock confidant was registered with a new service. -/
def helloHeap : Heap Nat := (RegisterConfidantOnHeap heapObjects {} 1 (Heap.new 0)).2

/-! ## The registration loop -/

/-- The model of `strings.Contains` holds exactly when `substr` occurs in `s` as
a run of consecutive bytes. -/
theorem Contains_iff_infix (s substr : GoString) :
    Contains s substr = true ↔ ∃ before after, s = before ++ substr ++ after := by
  simp only [Contains, List.any_eq_true, List.mem_tails, List.isPrefixOf_iff_prefix]
  constructor
  · rintro ⟨t, ⟨before, hb⟩, ⟨after, ha⟩⟩
    exact ⟨before, after, by rw [← hb, ← ha, List.append_assoc]⟩
  · rintro ⟨before, after, h⟩
    exact ⟨substr ++ after, ⟨before, by rw [h, List.append_assoc]⟩, ⟨after, rfl⟩⟩

theorem Contains_ne_nil {key : GoString} (h : Contains key (str "://") = true) : key ≠ [] := by
  intro hk
  subst hk
  revert h
  decide

/-- The loop never removes or changes a binding. -/
theorem registerSchemes_keeps {W : Type} (conf : Confidant W) (schemes : List GoString) :
    ∀ (m : GoString → Option (Confidant W)) (k : GoString) (c : Confidant W),
      m k = some c → (registerSchemes conf schemes m).2 k = some c := by
  induction schemes with
  | nil => intro m k c h; simpa [registerSchemes] using h
  | cons scheme rest ih =>
    intro m k c h
    cases hm : m scheme with
    | some c0 => simpa [registerSchemes, hm] using h
    | none =>
      simp only [registerSchemes, hm]
      apply ih
      have hk : k ≠ scheme := by
        intro hks
        rw [hks, hm] at h
        cases h
      simp [mapSet, hk, h]

/-- The loop touches only the schemes of the list. -/
theorem registerSchemes_not_mem {W : Type} (conf : Confidant W) (schemes : List GoString) :
    ∀ (m : GoString → Option (Confidant W)) (k : GoString),
      k ∉ schemes → (registerSchemes conf schemes m).2 k = m k := by
  induction schemes with
  | nil => intro m k _; rfl
  | cons scheme rest ih =>
    intro m k hk
    have hk1 : k ≠ scheme := fun h => hk (h ▸ List.mem_cons_self _ _)
    have hk2 : k ∉ rest := fun h => hk (List.mem_cons_of_mem _ h)
    cases hm : m scheme with
    | some c0 => simp [registerSchemes, hm]
    | none =>
      simp only [registerSchemes, hm]
      rw [ih _ _ hk2]
      simp [mapSet, hk1]

/-- On a list of distinct unbound schemes the loop succeeds and binds them all. -/
theorem registerSchemes_fresh {W : Type} (conf : Confidant W) (schemes : List GoString) :
    ∀ (m : GoString → Option (Confidant W)),
      schemes.Nodup → (∀ k ∈ schemes, m k = none) →
      (registerSchemes conf schemes m).1 = none ∧
        ∀ k ∈ schemes, (registerSchemes conf schemes m).2 k = some conf := by
  induction schemes with
  | nil => intro m _ _; simp [registerSchemes]
  | cons scheme rest ih =>
    intro m hnd hfree
    have hm : m scheme = none := hfree scheme (List.mem_cons_self _ _)
    have hnd2 := List.nodup_cons.mp hnd
    have hfree2 : ∀ k ∈ rest, mapSet m scheme conf k = none := by
      intro k hk
      have hne : k ≠ scheme := fun h => hnd2.1 (h ▸ hk)
      simp [mapSet, hne, hfree k (List.mem_cons_of_mem _ hk)]
    have h := ih (mapSet m scheme conf) hnd2.2 hfree2
    simp only [registerSchemes, hm]
    refine ⟨h.1, ?_⟩
    intro k hk
    rcases List.mem_cons.mp hk with hks | hkr
    · subst hks
      apply registerSchemes_keeps
      simp [mapSet]
    · exact h.2 k hkr

/-- On a list holding a bound scheme the loop stops with the error at some
scheme `a` of the list, having bound exactly the schemes `pre` listed before
`a`, which were all unbound. -/
theorem registerSchemes_conflict {W : Type} (conf : Confidant W) (schemes : List GoString) :
    ∀ (m : GoString → Option (Confidant W)),
      (∃ k ∈ schemes, m k ≠ none) →
      ∃ pre a post, schemes = pre ++ a :: post ∧
        (registerSchemes conf schemes m).1 = some (Error.other (str "scheme " ++ a ++
          str " already registered by another confidant")) ∧
        (∀ k ∈ pre, m k = none) ∧
        ∀ k, (registerSchemes conf schemes m).2 k = if k ∈ pre then some conf else m k := by
  induction schemes with
  | nil => intro m h; obtain ⟨k, hk, _⟩ := h; cases hk
  | cons scheme rest ih =>
    intro m h
    cases hm : m scheme with
    | some c0 =>
      refine ⟨[], scheme, rest, rfl, ?_, ?_, ?_⟩
      · simp [registerSchemes, hm]
      · intro k hk; cases hk
      · intro k; simp [registerSchemes, hm]
    | none =>
      obtain ⟨k0, hk0, hb0⟩ := h
      have hne0 : k0 ≠ scheme := by
        intro h0
        rw [h0] at hb0
        exact hb0 hm
      have hk0r : k0 ∈ rest := by
        rcases List.mem_cons.mp hk0 with h0 | h0
        · exact absurd h0 hne0
        · exact h0
      have hb0m : mapSet m scheme conf k0 ≠ none := by simpa [mapSet, hne0] using hb0
      obtain ⟨pre, a, post, hsplit, herr, hpre, hmap⟩ :=
        ih (mapSet m scheme conf) ⟨k0, hk0r, hb0m⟩
      refine ⟨scheme :: pre, a, post, by simp [hsplit], ?_, ?_, ?_⟩
      · simpa [registerSchemes, hm] using herr
      · intro k hk
        rcases List.mem_cons.mp hk with hks | hkp
        · rw [hks]; exact hm
        · have h1 := hpre k hkp
          by_cases hks : k = scheme
          · rw [hks]; exact hm
          · simpa [mapSet, hks] using h1
      · intro k
        simp only [registerSchemes, hm]
        rw [hmap k]
        by_cases hks : k = scheme
        · subst hks
          by_cases hkp : k ∈ pre
          · simp [hkp]
          · simp [hkp, mapSet]
        · by_cases hkp : k ∈ pre
          · simp [hkp]
          · simp [hkp, hks, mapSet]

/-- On a list holding a bound scheme the loop stops at the first listed scheme
`a` that is bound when the loop reaches it: bound before, or listed earlier.  The
schemes `pre` listed before `a` are distinct and were unbound; exactly they have
been bound. -/
theorem registerSchemes_conflict_first {W : Type} (conf : Confidant W)
    (schemes : List GoString) :
    ∀ (m : GoString → Option (Confidant W)),
      (∃ k ∈ schemes, m k ≠ none) →
      ∃ pre a post, schemes = pre ++ a :: post ∧ pre.Nodup ∧
        (∀ k ∈ pre, m k = none) ∧ (m a ≠ none ∨ a ∈ pre) ∧
        (registerSchemes conf schemes m).1 = some (Error.other (str "scheme " ++ a ++
          str " already registered by another confidant")) ∧
        ∀ k, (registerSchemes conf schemes m).2 k = if k ∈ pre then some conf else m k := by
  induction schemes with
  | nil => intro m h; obtain ⟨k, hk, _⟩ := h; cases hk
  | cons scheme rest ih =>
    intro m h
    cases hm : m scheme with
    | some c0 =>
      refine ⟨[], scheme, rest, rfl, List.nodup_nil, ?_, ?_, ?_, ?_⟩
      · intro k hk; cases hk
      · left; rw [hm]; simp
      · simp [registerSchemes, hm]
      · intro k; simp [registerSchemes, hm]
    | none =>
      obtain ⟨k0, hk0, hb0⟩ := h
      have hne0 : k0 ≠ scheme := by
        intro h0
        rw [h0] at hb0
        exact hb0 hm
      have hk0r : k0 ∈ rest := by
        rcases List.mem_cons.mp hk0 with h0 | h0
        · exact absurd h0 hne0
        · exact h0
      have hb0m : mapSet m scheme conf k0 ≠ none := by simpa [mapSet, hne0] using hb0
      obtain ⟨pre, a, post, hsplit, hnd, hpre, hfirst, herr, hmap⟩ :=
        ih (mapSet m scheme conf) ⟨k0, hk0r, hb0m⟩
      have hnotin : scheme ∉ pre := by
        intro hin
        have h1 := hpre scheme hin
        simp [mapSet] at h1
      refine ⟨scheme :: pre, a, post, by simp [hsplit], List.nodup_cons.mpr ⟨hnotin, hnd⟩,
        ?_, ?_, ?_, ?_⟩
      · intro k hk
        rcases List.mem_cons.mp hk with hks | hkp
        · rw [hks]; exact hm
        · have h1 := hpre k hkp
          by_cases hks : k = scheme
          · rw [hks]; exact hm
          · simpa [mapSet, hks] using h1
      · rcases hfirst with h1 | h1
        · by_cases has : a = scheme
          · right; rw [has]; exact List.mem_cons_self _ _
          · left; simpa [mapSet, has] using h1
        · right; exact List.mem_cons_of_mem _ h1
      · simpa [registerSchemes, hm] using herr
      · intro k
        simp only [registerSchemes, hm]
        rw [hmap k]
        by_cases hks : k = scheme
        · subst hks
          by_cases hkp : k ∈ pre
          · simp [hkp]
          · simp [hkp, mapSet]
        · by_cases hkp : k ∈ pre
          · simp [hkp]
          · simp [hkp, hks, mapSet]

/-- A call to `RegisterConfidant`, failed or not, keeps every binding. -/
theorem RegisterConfidant_keeps {W : Type} (s : Service W) (ctx : Context)
    (confidant : Confidant W) (w : World W) (k : GoString) (c : Confidant W)
    (h : s.confidants k = some c) :
    (s.RegisterConfidant ctx confidant w).2.1.confidants k = some c := by
  unfold Service.RegisterConfidant
  cases he : (callSupportedURLSchemes confidant ctx w).1.2 with
  | some err => simpa [he] using h
  | none =>
    simp only [he]
    exact registerSchemes_keeps _ _ _ _ _ h

/-- A sequence of calls keeps every binding. -/
theorem run_keeps {W : Type} (parse : GoString → Except Error URL) (ops : List (Op W)) :
    ∀ (st : Service W × World W) (k : GoString) (c : Confidant W),
      st.1.confidants k = some c → (run parse ops st).1.confidants k = some c := by
  induction ops with
  | nil => intro st k c h; exact h
  | cons op rest ih =>
    intro st k c h
    have hstep : (step parse st op).1.confidants k = some c := by
      cases op with
      | RegisterConfidant ctx confidant => exact RegisterConfidant_keeps _ _ _ _ _ _ h
      | Fetch ctx req => exact h
    exact ih _ _ _ hstep

/-! ## Fetch -/

/-- C1: for every registry, a non-empty key without "://" is returned as its own
bytes with a nil error, and the world (confidant state and call log) is left as
it was: no confidant is invoked. -/
theorem Fetch_literal {W : Type} (parse : GoString → Except Error URL) (s : Service W)
    (ctx : Context) (k : GoString) (w : World W)
    (hne : k ≠ []) (hno : Contains k (str "://") = false) :
    s.Fetch parse ctx k w = ((some k, none), w) ∧
      (s.Fetch parse ctx k w).2.calls = w.calls := by
  simp [Service.Fetch, hne, hno]

/-- C1, at the key "foo" of `TestFetch`, with a confidant registered. -/
theorem Fetch_literal_witness :
    str "foo" ≠ [] ∧ Contains (str "foo") (str "://") = false ∧
      mockService.Fetch url.Parse {} (str "foo") (World.init 0) =
        ((some (str "foo"), none), World.init 0) :=
  ⟨by decide, by decide,
    (Fetch_literal url.Parse mockService {} (str "foo") (World.init 0)
      (by decide) (by decide)).1⟩

/-- C2: for every registry, `Fetch` of the empty key returns nil bytes and the
sentinel `ErrNotFound`, invoking nothing. -/
theorem Fetch_empty {W : Type} (parse : GoString → Except Error URL) (s : Service W)
    (ctx : Context) (w : World W) :
    s.Fetch parse ctx [] w = ((none, some Error.ErrNotFound), w) := by
  simp [Service.Fetch]

/-- C3: for every registry, a key containing "://" that the parser rejects, or
that parses to a URL with an empty scheme, fails with the sentinel
`ErrURLInvalid` (nil bytes, nothing invoked). -/
theorem Fetch_url_invalid {W : Type} (parse : GoString → Except Error URL) (s : Service W)
    (ctx : Context) (key : GoString) (w : World W)
    (hurl : Contains key (str "://") = true)
    (hbad : (∃ e, parse key = .error e) ∨ (∃ u, parse key = .ok u ∧ u.Scheme = [])) :
    s.Fetch parse ctx key w = ((none, some Error.ErrURLInvalid), w) := by
  have hne : key ≠ [] := Contains_ne_nil hurl
  rcases hbad with ⟨e, he⟩ | ⟨u, hu, hs⟩
  · simp [Service.Fetch, hne, hurl, he]
  · simp [Service.Fetch, hne, hurl, hu, hs]

/-- C3, at the key "asm://id:secret//key" of the asm confidant's test: the host
"id:secret" has the port "secret", which is not a number. -/
theorem Fetch_url_invalid_witness :
    Contains (str "asm://id:secret//key") (str "://") = true ∧
      url.Parse (str "asm://id:secret//key") =
        .error (Error.wrap (url.invalidPort (str ":secret"))
          (str "parse asm://id:secret//key")) ∧
      mockService.Fetch url.Parse {} (str "asm://id:secret//key") (World.init 0) =
        ((none, some Error.ErrURLInvalid), World.init 0) :=
  ⟨by decide, by decide,
    Fetch_url_invalid url.Parse mockService {} (str "asm://id:secret//key") (World.init 0)
      (by decide)
      (Or.inl ⟨Error.wrap (url.invalidPort (str ":secret")) (str "parse asm://id:secret//key"),
        by decide⟩)⟩

/-- A key containing "://" that parses to a URL without a scheme is answered
with `ErrURLInvalid`: the library parser and the dispatcher run on
"//host/a://b". -/
theorem Fetch_empty_scheme_example :
    url.Parse (str "//host/a://b") = .ok { Host := str "host", Path := str "/a://b" } ∧
      mockService.Fetch url.Parse {} (str "//host/a://b") (World.init 0) =
        ((none, some Error.ErrURLInvalid), World.init 0) :=
  ⟨by decide, rfl⟩

/-- The library parser on the keys of the repository's tests and on a key with
every component: the scheme is lower-cased, the path is unescaped. -/
theorem Parse_examples :
    url.Parse (str "mock://") = .ok { Scheme := str "mock" } ∧
      url.Parse (str "direct:///dev/secret") =
        .ok { Scheme := str "direct", Path := str "/dev/secret" } ∧
      url.Parse (str "direct:////secret") =
        .ok { Scheme := str "direct", Path := str "//secret" } ∧
      url.Parse (str "MOCK://u:p@h:80/a%20b?x=1#f") =
        .ok { Scheme := str "mock", User := some ⟨str "u", str "p", true⟩, Host := str "h:80",
              Path := str "/a b", RawQuery := str "x=1", Fragment := str "f" } ∧
      url.Parse (str "mock:opaque") = .ok { Scheme := str "mock", Opaque := str "opaque" } ∧
      url.Parse (str "://x") =
        .error (Error.wrap (Error.other (str "missing protocol scheme")) (str "parse ://x")) := by
  decide

/-- C4: for every registry, a key containing "://" that parses to a URL with a
non-empty scheme under which nothing is bound fails with the sentinel
`ErrSchemeUnknown`, and the world is left as it was: no confidant is invoked. -/
theorem Fetch_scheme_unknown {W : Type} (parse : GoString → Except Error URL)
    (s : Service W) (ctx : Context) (key : GoString) (u : URL) (w : World W)
    (hurl : Contains key (str "://") = true) (hparse : parse key = .ok u)
    (hscheme : u.Scheme ≠ []) (hunbound : s.confidants u.Scheme = none) :
    s.Fetch parse ctx key w = ((none, some Error.ErrSchemeUnknown), w) ∧
      (s.Fetch parse ctx key w).2.calls = w.calls := by
  have hne : key ≠ [] := Contains_ne_nil hurl
  simp [Service.Fetch, hne, hurl, hparse, hscheme, hunbound]

/-- C4, at the key "nomock://" of `TestRegister`. -/
theorem Fetch_scheme_unknown_witness :
    Contains (str "nomock://") (str "://") = true ∧
      url.Parse (str "nomock://") = .ok { Scheme := str "nomock" } ∧
      mockService.confidants (str "nomock") = none ∧
      mockService.Fetch url.Parse {} (str "nomock://") (World.init 0) =
        ((none, some Error.ErrSchemeUnknown), World.init 0) :=
  ⟨by decide, by decide, rfl,
    (Fetch_scheme_unknown url.Parse mockService {} (str "nomock://") { Scheme := str "nomock" }
      (World.init 0) (by decide) (by decide) (by decide) rfl).1⟩

/-- The routing step of `Fetch`: one invocation of the bound confidant, with
the given context and the parsed URL. -/
theorem Fetch_delegates_aux {W : Type} (parse : GoString → Except Error URL)
    (s : Service W) (ctx : Context) (key : GoString) (u : URL) (c : Confidant W) (w : World W)
    (hurl : Contains key (str "://") = true) (hparse : parse key = .ok u)
    (hscheme : u.Scheme ≠ []) (hbound : s.confidants u.Scheme = some c) :
    (s.Fetch parse ctx key w).2.calls = w.calls ++ [Call.Fetch c ctx u] ∧
      (s.Fetch parse ctx key w).2.state = (c.Fetch ctx u w.state).2 ∧
      ∀ v, (c.Fetch ctx u w.state).1 = (v, none) → (s.Fetch parse ctx key w).1 = (v, none) := by
  have hne : key ≠ [] := Contains_ne_nil hurl
  simp only [Service.Fetch, hne, hurl, hparse, hscheme, hbound, callFetch, if_false,
    Bool.not_true, Bool.false_eq_true]
  cases h : (c.Fetch ctx u w.state).1.2 with
  | none =>
    refine ⟨rfl, rfl, ?_⟩
    intro v hv
    simp [hv]
  | some e =>
    refine ⟨rfl, rfl, ?_⟩
    intro v hv
    simp [hv] at h

/-- C5: a key containing "://" that parses to a URL `u` with a non-empty scheme
bound to `c` makes `Fetch` invoke `c.Fetch` exactly once, with the context it
was given and with `u`: the call log grows by that one entry and the confidant
state is the one `c.Fetch ctx u` leaves.  When `c` returns `(v, nil)`, `Fetch`
returns `(v, nil)`. -/
theorem Fetch_delegates {W : Type} (parse : GoString → Except Error URL)
    (s : Service W) (ctx : Context) (key : GoString) (u : URL) (c : Confidant W) (w : World W)
    (hurl : Contains key (str "://") = true) (hparse : parse key = .ok u)
    (hscheme : u.Scheme ≠ []) (hbound : s.confidants u.Scheme = some c) :
    (s.Fetch parse ctx key w).2.calls = w.calls ++ [Call.Fetch c ctx u] ∧
      (s.Fetch parse ctx key w).2.state = (c.Fetch ctx u w.state).2 ∧
      ∀ v, (c.Fetch ctx u w.state).1 = (v, none) → (s.Fetch parse ctx key w).1 = (v, none) :=
  Fetch_delegates_aux parse s ctx key u c w hurl hparse hscheme hbound

/-- C5, at the key "mock://" of `TestRegister`: the mock confidant is invoked
once and its "hello" is returned. -/
theorem Fetch_delegates_witness :
    Contains (str "mock://") (str "://") = true ∧
      url.Parse (str "mock://") = .ok { Scheme := str "mock" } ∧
      mockService.confidants (str "mock") = some (MockConfidant Nat) ∧
      (mockService.Fetch url.Parse {} (str "mock://") (World.init 0)).2.calls =
        [Call.Fetch (MockConfidant Nat) {} { Scheme := str "mock" }] ∧
      (mockService.Fetch url.Parse {} (str "mock://") (World.init 0)).1 =
        (some (str "hello"), none) :=
  have h := Fetch_delegates url.Parse mockService {} (str "mock://") { Scheme := str "mock" }
    (MockConfidant Nat) (World.init 0) (by decide) (by decide) (by decide) rfl
  ⟨by decide, by decide, rfl, h.1, h.2.2 _ rfl⟩

/-- C6: when the confidant `c` to which a key is routed returns a non-nil error
`e`, `Fetch` returns nil bytes and that very error value, so that it is equal to
a given sentinel exactly when `e` is. -/
theorem Fetch_error_verbatim {W : Type} (parse : GoString → Except Error URL)
    (s : Service W) (ctx : Context) (key : GoString) (u : URL) (c : Confidant W) (w : World W)
    (e : Error)
    (hurl : Contains key (str "://") = true) (hparse : parse key = .ok u)
    (hscheme : u.Scheme ≠ []) (hbound : s.confidants u.Scheme = some c)
    (herr : (c.Fetch ctx u w.state).1.2 = some e) :
    (s.Fetch parse ctx key w).1 = (none, some e) ∧
      ∀ t : Error, (s.Fetch parse ctx key w).1.2 = some t ↔ e = t := by
  have hne : key ≠ [] := Contains_ne_nil hurl
  have h1 : (s.Fetch parse ctx key w).1 = (none, some e) := by
    simp [Service.Fetch, hne, hurl, hparse, hscheme, hbound, callFetch, herr]
  refine ⟨h1, ?_⟩
  intro t
  rw [h1]
  simp

/-- C6, at the key "fail://x" routed to a confidant that fails with
`ErrNotFound`: the caller sees `ErrNotFound` itself. -/
theorem Fetch_error_verbatim_witness :
    Contains (str "fail://x") (str "://") = true ∧
      url.Parse (str "fail://x") = .ok { Scheme := str "fail", Host := str "x" } ∧
      failService.confidants (str "fail") = some notFoundConfidant ∧
      (failService.Fetch url.Parse {} (str "fail://x") (World.init 0)).1 =
        (none, some Error.ErrNotFound) :=
  ⟨by decide, by decide, rfl,
    (Fetch_error_verbatim url.Parse failService {} (str "fail://x")
      { Scheme := str "fail", Host := str "x" } notFoundConfidant (World.init 0)
      Error.ErrNotFound (by decide) (by decide) (by decide) rfl rfl).1⟩

/-! ## RegisterConfidant -/

/-- C7 fails as stated: with "mock" bound, registering a confidant that
advertises "b" and then "mock" fails, and the failed call has bound "b", so the
map is not the map before. -/
theorem RegisterConfidant_atomic_counterexample :
    mockService.confidants (str "mock") = some (MockConfidant Nat) ∧
      mockService.confidants (str "b") = none ∧
      (bThenMock.SupportedURLSchemes {} 0).1 = ([str "b", str "mock"], none) ∧
      (mockService.RegisterConfidant {} bThenMock (World.init 0)).1 ≠ none ∧
      (mockService.RegisterConfidant {} bThenMock (World.init 0)).2.1.confidants (str "b") =
        some bThenMock ∧
      (mockService.RegisterConfidant {} bThenMock (World.init 0)).2.1.confidants ≠
        mockService.confidants := by
  refine ⟨rfl, rfl, rfl, by decide, rfl, ?_⟩
  intro h
  have hb := congrFun h (str "b")
  have h1 : (mockService.RegisterConfidant {} bThenMock (World.init 0)).2.1.confidants (str "b") =
      some bThenMock := rfl
  have h2 : mockService.confidants (str "b") = none := rfl
  rw [h1, h2] at hb
  cases hb

/-- C7, amended: when the confidant's scheme list holds a scheme that is already
bound, `RegisterConfidant` fails, and not atomically.  The loop stops at the
first listed scheme `a` that is bound when the loop reaches it (bound before the
call, or listed earlier in the same list) and the error names `a`; the schemes
`pre` listed before `a` are distinct, were unbound, and are bound to the
confidant by the failed call; every other scheme is as before.  So every binding
that existed is kept and schemes not listed are untouched; when the first listed
scheme is already bound the map is unchanged and the error names it; when the
first listed scheme is unbound, the failed call leaves it bound to the
confidant. -/
theorem RegisterConfidant_conflict {W : Type} (s : Service W) (ctx : Context)
    (c : Confidant W) (w : World W) (schemes : List GoString)
    (hadv : (c.SupportedURLSchemes ctx w.state).1 = (schemes, none))
    (hconf : ∃ k ∈ schemes, s.confidants k ≠ none) :
    (∃ pre a post, schemes = pre ++ a :: post ∧ pre.Nodup ∧
        (∀ k ∈ pre, s.confidants k = none) ∧ (s.confidants a ≠ none ∨ a ∈ pre) ∧
        (s.RegisterConfidant ctx c w).1 = some (Error.other (str "scheme " ++ a ++
          str " already registered by another confidant")) ∧
        ∀ k, (s.RegisterConfidant ctx c w).2.1.confidants k =
          if k ∈ pre then some c else s.confidants k) ∧
      (∀ k c0, s.confidants k = some c0 →
        (s.RegisterConfidant ctx c w).2.1.confidants k = some c0) ∧
      (∀ k, k ∉ schemes → (s.RegisterConfidant ctx c w).2.1.confidants k = s.confidants k) ∧
      (∀ a rest, schemes = a :: rest → s.confidants a ≠ none →
        (s.RegisterConfidant ctx c w).2.1.confidants = s.confidants ∧
        (s.RegisterConfidant ctx c w).1 = some (Error.other (str "scheme " ++ a ++
          str " already registered by another confidant"))) ∧
      (∀ b rest, schemes = b :: rest → s.confidants b = none →
        (s.RegisterConfidant ctx c w).2.1.confidants b = some c ∧
        (s.RegisterConfidant ctx c w).2.1.confidants ≠ s.confidants) := by
  have hreg : s.RegisterConfidant ctx c w =
      ((registerSchemes c schemes s.confidants).1,
        { confidants := (registerSchemes c schemes s.confidants).2 },
        (callSupportedURLSchemes c ctx w).2) := by
    simp [Service.RegisterConfidant, callSupportedURLSchemes, hadv]
  refine ⟨?_, ?_, ?_, ?_, ?_⟩
  · obtain ⟨pre, a, post, h1, h2, h3, h4, h5, h6⟩ :=
      registerSchemes_conflict_first c schemes s.confidants hconf
    exact ⟨pre, a, post, h1, h2, h3, h4, by rw [hreg]; exact h5, by rw [hreg]; exact h6⟩
  · intro k c0 h
    exact RegisterConfidant_keeps s ctx c w k c0 h
  · intro k hk
    rw [hreg]
    exact registerSchemes_not_mem c schemes s.confidants k hk
  · intro a rest hsplit ha
    rw [hreg, hsplit]
    cases hm : s.confidants a with
    | none => exact absurd hm ha
    | some c0 => simp [registerSchemes, hm]
  · intro b rest hsplit hb
    have hbound : (s.RegisterConfidant ctx c w).2.1.confidants b = some c := by
      rw [hreg, hsplit]
      simp only [registerSchemes, hb]
      apply registerSchemes_keeps
      simp [mapSet]
    refine ⟨hbound, ?_⟩
    intro heq
    rw [heq, hb] at hbound
    cases hbound

/-- C7 amended, with "mock" bound.  At the list "b", "mock": the failed call
leaves "b" bound to the confidant.  At the list "mock", "b": the map is
unchanged, "b" is still unbound, and the error names "mock". -/
theorem RegisterConfidant_conflict_witness :
    (bThenMock.SupportedURLSchemes {} 0).1 = ([str "b", str "mock"], none) ∧
      (∃ k ∈ [str "b", str "mock"], mockService.confidants k ≠ none) ∧
      mockService.confidants (str "b") = none ∧
      (mockService.RegisterConfidant {} bThenMock (World.init 0)).2.1.confidants (str "b") =
        some bThenMock ∧
      (mockThenB.SupportedURLSchemes {} 0).1 = ([str "mock", str "b"], none) ∧
      (∃ k ∈ [str "mock", str "b"], mockService.confidants k ≠ none) ∧
      (mockService.RegisterConfidant {} mockThenB (World.init 0)).2.1.confidants =
        mockService.confidants ∧
      (mockService.RegisterConfidant {} mockThenB (World.init 0)).1 =
        some (Error.other (str "scheme " ++ str "mock" ++
          str " already registered by another confidant")) :=
  have hb : mockService.confidants (str "mock") ≠ none := by
    intro h
    have h1 : mockService.confidants (str "mock") = some (MockConfidant Nat) := rfl
    rw [h1] at h
    cases h
  have hc1 : ∃ k ∈ [str "b", str "mock"], mockService.confidants k ≠ none :=
    ⟨str "mock", List.mem_cons_of_mem _ (List.mem_cons_self _ _), hb⟩
  have hc2 : ∃ k ∈ [str "mock", str "b"], mockService.confidants k ≠ none :=
    ⟨str "mock", List.mem_cons_self _ _, hb⟩
  have h1 := (RegisterConfidant_conflict mockService {} bThenMock (World.init 0)
    [str "b", str "mock"] rfl hc1).2.2.2.2 (str "b") [str "mock"] rfl rfl
  have h2 := (RegisterConfidant_conflict mockService {} mockThenB (World.init 0)
    [str "mock", str "b"] rfl hc2).2.2.2.1 (str "mock") [str "b"] rfl hb
  ⟨rfl, hc1, rfl, h1.1, rfl, hc2, h2.1, h2.2⟩

/-- C8: when `scheme` is bound to `c1`, registering any confidant `c2` whose
scheme list holds `scheme` (another confidant, or `c1` again) returns an error
and leaves `scheme` bound to `c1`; a later `Fetch` of a key whose URL has that
scheme invokes `c1` and no other confidant, and returns what `c1` returns. -/
theorem RegisterConfidant_first_wins {W : Type} (parse : GoString → Except Error URL)
    (s : Service W) (ctx : Context) (c1 c2 : Confidant W) (w : World W) (scheme : GoString)
    (hbound : s.confidants scheme = some c1)
    (hadv : scheme ∈ (c2.SupportedURLSchemes ctx w.state).1.1) :
    (s.RegisterConfidant ctx c2 w).1 ≠ none ∧
      (s.RegisterConfidant ctx c2 w).2.1.confidants scheme = some c1 ∧
      ∀ (ctx2 : Context) (key : GoString) (u : URL) (w2 : World W),
        Contains key (str "://") = true → parse key = .ok u → u.Scheme = scheme →
        scheme ≠ [] →
        ((s.RegisterConfidant ctx c2 w).2.1.Fetch parse ctx2 key w2).2.calls =
            w2.calls ++ [Call.Fetch c1 ctx2 u] ∧
          ((s.RegisterConfidant ctx c2 w).2.1.Fetch parse ctx2 key w2).1.2 =
            (c1.Fetch ctx2 u w2.state).1.2 ∧
          ∀ v, (c1.Fetch ctx2 u w2.state).1 = (v, none) →
            ((s.RegisterConfidant ctx c2 w).2.1.Fetch parse ctx2 key w2).1 = (v, none) := by
  have hkeep := RegisterConfidant_keeps s ctx c2 w scheme c1 hbound
  refine ⟨?_, hkeep, ?_⟩
  · unfold Service.RegisterConfidant
    cases he : (callSupportedURLSchemes c2 ctx w).1.2 with
    | some err => simp [he]
    | none =>
      simp only [he]
      have hconf : ∃ k ∈ (callSupportedURLSchemes c2 ctx w).1.1, s.confidants k ≠ none :=
        ⟨scheme, hadv, by rw [hbound]; simp⟩
      obtain ⟨pre, a, post, _, h2, _, _⟩ := registerSchemes_conflict c2 _ s.confidants hconf
      rw [h2]
      simp
  · intro ctx2 key u w2 hurl hparse hsch hne
    subst hsch
    have hd := Fetch_delegates_aux parse (s.RegisterConfidant ctx c2 w).2.1 ctx2 key u c1 w2
      hurl hparse hne hkeep
    refine ⟨hd.1, ?_, hd.2.2⟩
    have hk : key ≠ [] := Contains_ne_nil hurl
    simp only [Service.Fetch, hk, hurl, hparse, hne, hkeep, callFetch, if_false,
      Bool.not_true, Bool.false_eq_true]
    cases h : (c1.Fetch ctx2 u w2.state).1.2 <;> rfl

/-- C8, at `TestRegister`: registering the mock confidant a second time fails,
and "mock://" is still answered by it. -/
theorem RegisterConfidant_first_wins_witness :
    mockService.confidants (str "mock") = some (MockConfidant Nat) ∧
      str "mock" ∈ ((MockConfidant Nat).SupportedURLSchemes {} 0).1.1 ∧
      (mockService.RegisterConfidant {} (MockConfidant Nat) (World.init 0)).1 ≠ none ∧
      (mockService.RegisterConfidant {} (MockConfidant Nat) (World.init 0)).2.1.confidants
        (str "mock") = some (MockConfidant Nat) :=
  have h := RegisterConfidant_first_wins url.Parse mockService {} (MockConfidant Nat)
    (MockConfidant Nat) (World.init 0) (str "mock") rfl (List.mem_cons_self _ _)
  ⟨rfl, List.mem_cons_self _ _, h.1, h.2.1⟩

/-- C9: when `SupportedURLSchemes` succeeds with a list of distinct schemes none
of which is bound, `RegisterConfidant` returns nil, every listed scheme is bound
to the confidant afterwards, and every other scheme is as before. -/
theorem RegisterConfidant_success {W : Type} (s : Service W) (ctx : Context)
    (c : Confidant W) (w : World W) (schemes : List GoString)
    (hadv : (c.SupportedURLSchemes ctx w.state).1 = (schemes, none))
    (hnodup : schemes.Nodup) (hfree : ∀ k ∈ schemes, s.confidants k = none) :
    (s.RegisterConfidant ctx c w).1 = none ∧
      (∀ k ∈ schemes, (s.RegisterConfidant ctx c w).2.1.confidants k = some c) ∧
      (∀ k, k ∉ schemes → (s.RegisterConfidant ctx c w).2.1.confidants k = s.confidants k) := by
  have hreg : s.RegisterConfidant ctx c w =
      ((registerSchemes c schemes s.confidants).1,
        { confidants := (registerSchemes c schemes s.confidants).2 },
        (callSupportedURLSchemes c ctx w).2) := by
    simp [Service.RegisterConfidant, callSupportedURLSchemes, hadv]
  have h := registerSchemes_fresh c schemes s.confidants hnodup hfree
  rw [hreg]
  exact ⟨h.1, h.2, fun k hk => registerSchemes_not_mem c schemes s.confidants k hk⟩

/-- C9, at `TestRegister`: the mock confidant registers into a new service,
which binds "mock" to it. -/
theorem RegisterConfidant_success_witness :
    ((MockConfidant Nat).SupportedURLSchemes {} 0).1 = ([str "mock"], none) ∧
      [str "mock"].Nodup ∧ (∀ k ∈ [str "mock"], (New Nat).confidants k = none) ∧
      ((New Nat).RegisterConfidant {} (MockConfidant Nat) (World.init 0)).1 = none ∧
      mockService.confidants (str "mock") = some (MockConfidant Nat) :=
  have h := RegisterConfidant_success (New Nat) {} (MockConfidant Nat) (World.init 0)
    [str "mock"] rfl (List.nodup_singleton _) (fun _ _ => rfl)
  ⟨rfl, List.nodup_singleton _, fun _ _ => rfl, h.1, h.2.1 _ (List.mem_cons_self _ _)⟩

/-- C10: over every sequence of `RegisterConfidant` and `Fetch` calls, a scheme
that is bound to `c` after some of the calls is bound to `c` after every later
call: no call removes a binding or rebinds a scheme. -/
theorem registry_append_only {W : Type} (parse : GoString → Except Error URL)
    (ops later : List (Op W)) (st : Service W × World W) (scheme : GoString)
    (c : Confidant W)
    (hbound : (run parse ops st).1.confidants scheme = some c) :
    (run parse (ops ++ later) st).1.confidants scheme = some c := by
  have happ : run parse (ops ++ later) st = run parse later (run parse ops st) := by
    simp [run, List.foldl_append]
  rw [happ]
  exact run_keeps parse later _ scheme c hbound

/-- C10, at a run of four calls after the mock confidant was registered: a
failed registration for "b" and "mock", two fetches and a re-registration leave
"mock" bound to the mock confidant. -/
theorem registry_append_only_witness :
    (run url.Parse [Op.RegisterConfidant {} (MockConfidant Nat)]
        (New Nat, World.init 0)).1.confidants (str "mock") = some (MockConfidant Nat) ∧
      (run url.Parse ([Op.RegisterConfidant {} (MockConfidant Nat)] ++
          [Op.RegisterConfidant {} mockThenB, Op.Fetch {} (str "mock://"),
            Op.Fetch {} (str "foo"), Op.RegisterConfidant {} (MockConfidant Nat)])
        (New Nat, World.init 0)).1.confidants (str "mock") = some (MockConfidant Nat) :=
  ⟨rfl, registry_append_only url.Parse [Op.RegisterConfidant {} (MockConfidant Nat)] _
    (New Nat, World.init 0) (str "mock") (MockConfidant Nat) rfl⟩

/-! ## Fetch: frame and classification -/

/-- A run of `Fetch` calls leaves the service as it was. -/
theorem run_Fetch_only {W : Type} (parse : GoString → Except Error URL) (ops : List (Op W)) :
    ∀ (st : Service W × World W), (∀ op ∈ ops, op.isFetch = true) →
      (run parse ops st).1 = st.1 := by
  induction ops with
  | nil => intro st _; rfl
  | cons op rest ih =>
    intro st h
    have hrest : ∀ o ∈ rest, o.isFetch = true := fun o ho => h o (List.mem_cons_of_mem _ ho)
    have hop := h op (List.mem_cons_self _ _)
    cases op with
    | RegisterConfidant ctx c => simp [Op.isFetch] at hop
    | Fetch ctx req =>
      have h1 := ih (step parse st (Op.Fetch ctx req)) hrest
      simpa [run, step] using h1

/-- C12: a key containing "://" is never answered from the key itself.  The
result is `ErrURLInvalid` or `ErrSchemeUnknown`, with nil bytes and nothing
invoked, or it is the result of the one invocation of the confidant bound to the
parsed scheme: its error if that is not nil, else its bytes.  So whenever bytes
are returned, a confidant was invoked and returned them. -/
theorem Fetch_url_never_literal {W : Type} (parse : GoString → Except Error URL)
    (s : Service W) (ctx : Context) (key : GoString) (w : World W)
    (hurl : Contains key (str "://") = true) :
    s.Fetch parse ctx key w = ((none, some Error.ErrURLInvalid), w) ∨
      s.Fetch parse ctx key w = ((none, some Error.ErrSchemeUnknown), w) ∨
      ∃ u c, parse key = .ok u ∧ s.confidants u.Scheme = some c ∧
        (s.Fetch parse ctx key w).2 = (callFetch c ctx u w).2 ∧
        (s.Fetch parse ctx key w).1.2 = (c.Fetch ctx u w.state).1.2 ∧
        (s.Fetch parse ctx key w).1.1 =
          (if (c.Fetch ctx u w.state).1.2 = none then (c.Fetch ctx u w.state).1.1 else none) := by
  have hne : key ≠ [] := Contains_ne_nil hurl
  cases hp : parse key with
  | error e => left; simp [Service.Fetch, hne, hurl, hp]
  | ok u =>
    by_cases hs : u.Scheme = []
    · left; simp [Service.Fetch, hne, hurl, hp, hs]
    · cases hc : s.confidants u.Scheme with
      | none => right; left; simp [Service.Fetch, hne, hurl, hp, hs, hc]
      | some c =>
        right; right
        refine ⟨u, c, rfl, hc, ?_⟩
        simp only [Service.Fetch, hne, hurl, hp, hs, hc, callFetch, if_false, Bool.not_true,
          Bool.false_eq_true]
        cases he : (c.Fetch ctx u w.state).1.2 <;> simp

/-- C12, at keys with "://" at the start, in the middle and at the end, on the
service of `TestRegister`: URL-invalid, the mock confidant's "hello", and
scheme-unknown - never the key. -/
theorem Fetch_url_never_literal_witness :
    Contains (str "://x") (str "://") = true ∧
      Contains (str "mock://x") (str "://") = true ∧
      Contains (str "x://") (str "://") = true ∧
      (mockService.Fetch url.Parse {} (str "://x") (World.init 0)).1 =
        (none, some Error.ErrURLInvalid) ∧
      (mockService.Fetch url.Parse {} (str "mock://x") (World.init 0)).1 =
        (some (str "hello"), none) ∧
      (mockService.Fetch url.Parse {} (str "x://") (World.init 0)).1 =
        (none, some Error.ErrSchemeUnknown) ∧
      (mockService.Fetch url.Parse {} (str "://x") (World.init 0) =
          ((none, some Error.ErrURLInvalid), World.init 0) ∨
        mockService.Fetch url.Parse {} (str "://x") (World.init 0) =
          ((none, some Error.ErrSchemeUnknown), World.init 0) ∨
        ∃ u c, url.Parse (str "://x") = .ok u ∧ mockService.confidants u.Scheme = some c ∧
          (mockService.Fetch url.Parse {} (str "://x") (World.init 0)).2 =
            (callFetch c {} u (World.init 0)).2 ∧
          (mockService.Fetch url.Parse {} (str "://x") (World.init 0)).1.2 =
            (c.Fetch {} u (World.init 0).state).1.2 ∧
          (mockService.Fetch url.Parse {} (str "://x") (World.init 0)).1.1 =
            (if (c.Fetch {} u (World.init 0).state).1.2 = none
              then (c.Fetch {} u (World.init 0).state).1.1 else none)) :=
  ⟨by decide, by decide, by decide, by decide, by decide, by decide,
    Fetch_url_never_literal url.Parse mockService {} (str "://x") (World.init 0) (by decide)⟩

/-! ## The direct and file confidants -/

/-- Trimming the prefix "/" removes one leading slash if there is one. -/
theorem TrimPrefix_slash (p : GoString) :
    TrimPrefix p (str "/") = (if p.head? = some 47 then p.tail else p) := by
  have hs : str "/" = [47] := by decide
  rw [TrimPrefix, hs]
  cases p with
  | nil => simp
  | cons c t =>
    by_cases hc : c = 47
    · subst hc
      simp [List.isPrefixOf]
    · have hc2 : ¬ (47 : UInt8) = c := fun h => hc h.symm
      simp [List.isPrefixOf, hc, hc2]

/-- Nothing is left after trimming exactly for the empty path and for "/". -/
theorem TrimPrefix_slash_nil (p : GoString) :
    TrimPrefix p (str "/") = [] ↔ p = [] ∨ p = str "/" := by
  have hs : str "/" = [47] := by decide
  rw [TrimPrefix_slash, hs]
  cases p with
  | nil => simp
  | cons c t =>
    by_cases hc : c = 47
    · subst hc
      simp
    · simp [hc]


/-- C14: the direct confidant never fails and returns the path of the URL with
one leading "/" removed if there is one, as a nil value when nothing is left;
only the path of the URL matters.  Through the dispatcher: "direct:///secret"
gives "secret", "direct:///dev/secret" gives "dev/secret", "direct:////secret"
gives "/secret" and "direct://" gives nil bytes with a nil error; a host and a
user name change nothing. -/
theorem direct_Fetch_path (u : URL) :
    (direct.Fetch u).2 = none ∧
      (direct.Fetch u).1 =
        (if (if u.Path.head? = some 47 then u.Path.tail else u.Path) = [] then none
          else some (if u.Path.head? = some 47 then u.Path.tail else u.Path)) ∧
      direct.Fetch u = direct.Fetch { Path := u.Path } ∧
      (directService.Fetch url.Parse {} (str "direct:///secret") (World.init 0)).1 =
        (some (str "secret"), none) ∧
      (directService.Fetch url.Parse {} (str "direct:///dev/secret") (World.init 0)).1 =
        (some (str "dev/secret"), none) ∧
      (directService.Fetch url.Parse {} (str "direct:////secret") (World.init 0)).1 =
        (some (str "/secret"), none) ∧
      (directService.Fetch url.Parse {} (str "direct://") (World.init 0)).1 = (none, none) ∧
      (directService.Fetch url.Parse {} (str "direct://me@host/secret") (World.init 0)).1 =
        (some (str "secret"), none) := by
  have htrim := TrimPrefix_slash u.Path
  refine ⟨?_, ?_, rfl, by decide, by decide, by decide, by decide, by decide⟩
  · unfold direct.Fetch
    by_cases h : TrimPrefix u.Path (str "/") = [] <;> simp [h]
  · unfold direct.Fetch
    rw [← htrim]
    by_cases h : TrimPrefix u.Path (str "/") = [] <;> simp [h]

/-- C15: the file confidant reads the file named by the path of the URL and
nothing else of the URL.  It returns the contents unchanged when the read
succeeds, the sentinel `ErrNotFound` exactly when the read fails with an error
for which `os.IsNotExist` holds, and for any other read failure the cause
wrapped with "failed to fetch value", which is none of the three sentinels. -/
theorem file_Fetch_read {W : Type} (os : file.OS W) (u : URL) (fs : W) :
    file.Fetch os u fs = file.Fetch os { Path := u.Path } fs ∧
      (∀ data, os.ReadFile fs u.Path = (data, none) → file.Fetch os u fs = (data, none)) ∧
      (∀ data err, os.ReadFile fs u.Path = (data, some err) → os.IsNotExist err = true →
        file.Fetch os u fs = (none, some Error.ErrNotFound)) ∧
      (∀ data err, os.ReadFile fs u.Path = (data, some err) → os.IsNotExist err = false →
        file.Fetch os u fs = (none, some (Error.wrap err (str "failed to fetch value"))) ∧
        (file.Fetch os u fs).2 ≠ some Error.ErrNotFound ∧
        (file.Fetch os u fs).2 ≠ some Error.ErrURLInvalid ∧
        (file.Fetch os u fs).2 ≠ some Error.ErrSchemeUnknown) ∧
      ((file.Fetch os u fs).2 = some Error.ErrNotFound ↔
        ∃ err, (os.ReadFile fs u.Path).2 = some err ∧ os.IsNotExist err = true) := by
  refine ⟨rfl, ?_, ?_, ?_, ?_⟩
  · intro data h
    simp [file.Fetch, h]
  · intro data err h hne
    simp [file.Fetch, h, hne]
  · intro data err h hne
    simp [file.Fetch, h, hne]
  · cases he : (os.ReadFile fs u.Path).2 with
    | none => simp [file.Fetch, he]
    | some err =>
      by_cases hne : os.IsNotExist err = true
      · simp [file.Fetch, he, hne]
      · simp [file.Fetch, he, hne]

/-- C15, on a filesystem with one readable file, one unreadable file and
nothing else, through the dispatcher's parser: the contents, the wrapped cause,
and `ErrNotFound`. -/
theorem file_Fetch_read_witness :
    file.testOS.ReadFile () (str "/tmp/secret-key") = (some (str "secret value"), none) ∧
      file.Fetch file.testOS { Scheme := str "file", Path := str "/tmp/secret-key" } () =
        (some (str "secret value"), none) ∧
      file.testOS.ReadFile () (str "/tmp/secret-key2") = (none, some file.ENOENT) ∧
      file.testOS.IsNotExist file.ENOENT = true ∧
      file.Fetch file.testOS { Scheme := str "file", Path := str "/tmp/secret-key2" } () =
        (none, some Error.ErrNotFound) ∧
      file.testOS.ReadFile () (str "/root/key") = (none, some file.EACCES) ∧
      file.testOS.IsNotExist file.EACCES = false ∧
      file.Fetch file.testOS { Scheme := str "file", Host := str "h", Path := str "/root/key" } () =
        (none, some (Error.wrap file.EACCES (str "failed to fetch value"))) :=
  ⟨by decide,
    (file_Fetch_read file.testOS { Scheme := str "file", Path := str "/tmp/secret-key" } ()).2.1
      (some (str "secret value")) (by decide),
    by decide, by decide,
    (file_Fetch_read file.testOS { Scheme := str "file", Path := str "/tmp/secret-key2" } ()).2.2.1
      none file.ENOENT (by decide) (by decide),
    by decide, by decide,
    ((file_Fetch_read file.testOS
      { Scheme := str "file", Host := str "h", Path := str "/root/key" } ()).2.2.2.1
      none file.EACCES (by decide) (by decide)).1⟩

/-! ## The scheme of a parsed URL -/

/-- The index of a byte, one position at a time. -/
theorem Index_cons (b x : UInt8) (k : GoString) :
    url.Index (x :: k) [b] = if b = x then some 0 else (url.Index k [b]).map Nat.succ := by
  unfold url.Index
  rw [List.length_cons, List.range_succ_eq_map]
  by_cases h : b = x
  · subst h
    simp [List.isPrefixOf]
  · have h2 : (b == x) = false := by simpa using h
    rw [List.find?_cons]
    simp only [List.drop_zero, List.isPrefixOf, h2, Bool.false_and, if_neg h]
    rw [List.find?_map]
    rfl

/-- The part before a one-byte separator is the longest run without it. -/
theorem Cut_fst (b : UInt8) : ∀ k : GoString,
    (url.Cut k [b]).1 = k.takeWhile (fun x => x != b) := by
  intro k
  induction k with
  | nil => rfl
  | cons x k ih =>
    unfold url.Cut at ih ⊢
    rw [Index_cons]
    by_cases h : b = x
    · subst h
      simp
    · have h2 : (x != b) = true := by
        simp only [bne_iff_ne, ne_eq]
        exact fun hx => h hx.symm
      rw [if_neg h, List.takeWhile_cons, h2, if_pos rfl, ← ih]
      cases hi : url.Index k [b] with
      | none => simp
      | some i => simp

/-- The loop of `getScheme` on a scheme name followed by a colon. -/
theorem getSchemeLoop_scheme (raw : GoString) : ∀ (s pre t : GoString),
    pre ≠ [] → s.all isSchemeByte = true →
      url.getSchemeLoop raw pre (s ++ 58 :: t) = some (pre.reverse ++ s, t) := by
  intro s
  induction s with
  | nil =>
    intro pre t hpre _
    rw [List.nil_append, url.getSchemeLoop, if_neg (by decide), if_neg (by decide),
      if_pos (by decide), if_neg hpre]
    simp
  | cons x s ih =>
    intro pre t hpre hall
    have hx : isSchemeByte x = true := by
      simp only [List.all_cons, Bool.and_eq_true] at hall
      exact hall.1
    have hs : s.all isSchemeByte = true := by
      simp only [List.all_cons, Bool.and_eq_true] at hall
      exact hall.2
    have hrec := ih (x :: pre) t (List.cons_ne_nil _ _) hs
    rw [List.cons_append, url.getSchemeLoop]
    by_cases hl : url.isLetter x = true
    · rw [if_pos hl, hrec]
      simp
    · rw [if_neg hl]
      have hd : (url.isDigit x || x == 43 || x == 45 || x == 46) = true := by
        have hl2 : url.isLetter x = false := by simpa using hl
        simpa [isSchemeByte, hl2] using hx
      rw [if_pos hd, if_neg hpre, hrec]
      simp

/-- The function `getScheme` on a scheme name followed by a colon. -/
theorem getScheme_scheme (s t : GoString) (hs : isSchemeName s = true) :
    url.getScheme (s ++ 58 :: t) = .ok (s, t) := by
  cases s with
  | nil => simp [isSchemeName] at hs
  | cons c rest =>
    simp only [isSchemeName, Bool.and_eq_true] at hs
    have h := getSchemeLoop_scheme (c :: (rest ++ 58 :: t)) rest [c] t (List.cons_ne_nil _ _) hs.2
    unfold url.getScheme
    rw [List.cons_append, url.getSchemeLoop, if_pos hs.1, h]
    simp

/-- The method `setPath` leaves the scheme as it is. -/
theorem setPath_Scheme (u u2 : URL) (p : GoString) (h : url.setPath u p = .ok u2) :
    u2.Scheme = u.Scheme := by
  unfold url.setPath at h
  cases hu : url.unescape p .encodePath with
  | error e => simp [hu] at h
  | ok path =>
    simp only [hu, Except.ok.injEq] at h
    rw [← h]

/-- The method `setFragment` leaves the scheme as it is. -/
theorem setFragment_Scheme (u u2 : URL) (f : GoString) (h : url.setFragment u f = .ok u2) :
    u2.Scheme = u.Scheme := by
  unfold url.setFragment at h
  cases hu : url.unescape f .encodeFragment with
  | error e => simp [hu] at h
  | ok frag =>
    simp only [hu, Except.ok.injEq] at h
    rw [← h]

/-- The scheme of the URL that `parse` returns is the lower-cased scheme that
`getScheme` split off. -/
theorem parse_Scheme (raw scheme rest0 : GoString) (u : URL)
    (hstar : raw ≠ str "*") (hget : url.getScheme raw = .ok (scheme, rest0))
    (h : url.parse raw = .ok u) : u.Scheme = url.ToLower scheme := by
  unfold url.parse at h
  rw [hget] at h
  simp only [hstar, if_false] at h
  repeat' split at h
  all_goals first
    | (cases h; rfl)
    | cases h
    | rw [setPath_Scheme _ _ _ h]

/-- A byte of a scheme name is not the fragment separator. -/
theorem isSchemeByte_ne_hash (x : UInt8) (h : isSchemeByte x = true) : (x != 35) = true := by
  simp only [bne_iff_ne, ne_eq]
  intro hx
  subst hx
  revert h
  decide

/-- The library parser on a scheme name followed by "://": the scheme of the
URL is the name, lower-cased. -/
theorem Parse_Scheme (s rest : GoString) (u : URL) (hs : isSchemeName s = true)
    (h : url.Parse (s ++ str "://" ++ rest) = .ok u) : u.Scheme = url.ToLower s := by
  have hall : ∀ a ∈ s, (a != 35) = true := by
    cases s with
    | nil => intro a ha; cases ha
    | cons c t =>
      simp only [isSchemeName, Bool.and_eq_true, List.all_eq_true] at hs
      intro a ha
      rcases List.mem_cons.mp ha with h1 | h1
      · subst h1
        exact isSchemeByte_ne_hash a (by simp [isSchemeByte, hs.1])
      · exact isSchemeByte_ne_hash a (hs.2 a h1)
  have h35 : str "#" = [35] := by decide
  have hsep : str "://" = [58, 47, 47] := by decide
  have hraw : (url.Cut (s ++ str "://" ++ rest) (str "#")).1 =
      s ++ 58 :: (47 :: 47 :: rest.takeWhile (fun x => x != 35)) := by
    rw [h35, Cut_fst, hsep, List.append_assoc, List.takeWhile_append_of_pos hall]
    rfl
  have hne : s ≠ [] := by
    intro h0
    subst h0
    simp [isSchemeName] at hs
  have hstar : s ++ 58 :: (47 :: 47 :: rest.takeWhile (fun x => x != 35)) ≠ str "*" := by
    intro heq
    have hlen := congrArg List.length heq
    have h1 : (str "*").length = 1 := by decide
    rw [h1] at hlen
    simp only [List.length_append, List.length_cons] at hlen
    omega
  unfold url.Parse at h
  simp only [hraw] at h
  cases hp : url.parse (s ++ 58 :: (47 :: 47 :: rest.takeWhile (fun x => x != 35))) with
  | error e => simp [hp] at h
  | ok u0 =>
    have h0 := parse_Scheme _ s _ u0 hstar (getScheme_scheme s _ hs) hp
    simp only [hp] at h
    split at h
    · cases h
      exact h0
    · split at h
      · cases h
      · rename_i u2 hf
        cases h
        rw [setFragment_Scheme _ _ _ hf, h0]

/-! ## Routing -/

/-- C13 fails as stated.  "MOCK://x" parses to the scheme "mock": a confidant
bound under "MOCK" does not serve it (scheme-unknown), and the confidant bound
only under "mock" does, although nothing is bound under the prefix "MOCK".  And
the prefix of "x:y://z" before "://" is "x:y", under which nothing is bound,
yet the confidant bound under "x" serves it. -/
theorem Fetch_routing_prefix_counterexample :
    url.Parse (str "MOCK://x") = .ok { Scheme := str "mock", Host := str "x" } ∧
      upperMockService.confidants (str "MOCK") = some upperMockConfidant ∧
      (upperMockService.Fetch url.Parse {} (str "MOCK://x") (World.init 0)).1 =
        (none, some Error.ErrSchemeUnknown) ∧
      mockService.confidants (str "MOCK") = none ∧
      (mockService.Fetch url.Parse {} (str "MOCK://x") (World.init 0)).1 =
        (some (str "hello"), none) ∧
      url.Parse (str "x:y://z") = .ok { Scheme := str "x", Opaque := str "y://z" } ∧
      xService.confidants (str "x:y") = none ∧
      (xService.Fetch url.Parse {} (str "x:y://z") (World.init 0)).1 =
        (some (str "hello"), none) :=
  ⟨by decide, rfl, by decide, rfl, by decide, by decide, rfl, by decide⟩

/-- C13, amended: the routing key is the scheme of the parsed URL, which for a
key `s ++ "://" ++ rest` with `s` a scheme name is `s` lower-cased.  For such a
key that the library parser accepts, `Fetch` looks up exactly the lower-cased
`s`: it fails with `ErrSchemeUnknown`, invoking nothing, when nothing is bound
under it, and invokes the confidant bound under it otherwise. -/
theorem Fetch_routes_by_lowered_scheme {W : Type} (sv : Service W) (ctx : Context)
    (s rest : GoString) (u : URL) (w : World W)
    (hs : isSchemeName s = true) (hparse : url.Parse (s ++ str "://" ++ rest) = .ok u) :
    u.Scheme = url.ToLower s ∧
      (sv.confidants (url.ToLower s) = none →
        sv.Fetch url.Parse ctx (s ++ str "://" ++ rest) w =
          ((none, some Error.ErrSchemeUnknown), w)) ∧
      (∀ c, sv.confidants (url.ToLower s) = some c →
        (sv.Fetch url.Parse ctx (s ++ str "://" ++ rest) w).2.calls =
            w.calls ++ [Call.Fetch c ctx u] ∧
          (sv.Fetch url.Parse ctx (s ++ str "://" ++ rest) w).2.state =
            (c.Fetch ctx u w.state).2 ∧
          ∀ v, (c.Fetch ctx u w.state).1 = (v, none) →
            (sv.Fetch url.Parse ctx (s ++ str "://" ++ rest) w).1 = (v, none)) := by
  have hsch := Parse_Scheme s rest u hs hparse
  have hinf := Contains_iff_infix (s ++ str "://" ++ rest) (str "://")
  have hurl : Contains (s ++ str "://" ++ rest) (str "://") = true := hinf.mpr ⟨s, rest, rfl⟩
  have hne : u.Scheme ≠ [] := by
    rw [hsch]
    cases s with
    | nil => simp [isSchemeName] at hs
    | cons c t => simp [url.ToLower]
  refine ⟨hsch, ?_, ?_⟩
  · intro hnone
    rw [← hsch] at hnone
    generalize s ++ str "://" ++ rest = key at hparse hurl ⊢
    have hk : key ≠ [] := Contains_ne_nil hurl
    simp [Service.Fetch, hk, hurl, hparse, hne, hnone]
  · intro c hc
    rw [← hsch] at hc
    exact Fetch_delegates_aux url.Parse sv ctx _ u c w hurl hparse hne hc

/-- C13 amended, at the key "MOCK://x" on the service of `TestRegister`: the
confidant bound under "mock" answers. -/
theorem Fetch_routes_by_lowered_scheme_witness :
    isSchemeName (str "MOCK") = true ∧
      url.Parse (str "MOCK" ++ str "://" ++ str "x") =
        .ok { Scheme := str "mock", Host := str "x" } ∧
      url.ToLower (str "MOCK") = str "mock" ∧
      mockService.confidants (url.ToLower (str "MOCK")) = some (MockConfidant Nat) ∧
      (mockService.Fetch url.Parse {} (str "MOCK" ++ str "://" ++ str "x") (World.init 0)).1 =
        (some (str "hello"), none) :=
  ⟨by decide, by decide, by decide, rfl,
    ((Fetch_routes_by_lowered_scheme mockService {} (str "MOCK") (str "x")
      { Scheme := str "mock", Host := str "x" } (World.init 0) (by decide) (by decide)).2.2
      (MockConfidant Nat) rfl).2.2 _ rfl⟩

/-! ## The HTTP confidant -/

/-- Go's integer division by 100 gives 2 exactly on 200..299. -/
theorem tdiv_hundred (c : Int) : Int.tdiv c 100 = 2 ↔ 200 ≤ c ∧ c ≤ 299 := by
  rcases Int.lt_or_le c 0 with h | h
  · have h1 : Int.tdiv c 100 = -(Int.tdiv (-c) 100) := by
      rw [Int.neg_tdiv, Int.neg_neg]
    rw [h1, Int.tdiv_eq_ediv (by omega) (by decide)]
    omega
  · rw [Int.tdiv_eq_ediv h (by decide)]
    omega

/-- The classification written out in `fetch` and in `fetchWithOptions`. -/
theorem classify_eq (o : http.Outcome) {W : Type} (w : W) :
    (match o.err with
      | some _ => ((none, some Error.ErrNotFound), w)
      | none =>
        match o.resp with
        | none => ((none, some Error.ErrNotFound), w)
        | some resp =>
          match resp.ReadErr with
          | some _ => ((none, some Error.ErrNotFound), w)
          | none =>
            if resp.Body.length = 0 then ((none, some Error.ErrNotFound), w)
            else if Int.tdiv resp.StatusCode 100 ≠ 2 then ((none, some Error.ErrNotFound), w)
            else ((some resp.Body, none), w)) = (http.classify o, w) := by
  obtain ⟨resp, err⟩ := o
  cases err with
  | some e => simp [http.classify]
  | none =>
    cases resp with
    | none => simp [http.classify]
    | some r =>
      obtain ⟨code, body, rerr⟩ := r
      cases rerr with
      | some e => simp [http.classify]
      | none =>
        by_cases hb : body = []
        · simp [http.classify, hb]
        · have hlen : body.length ≠ 0 := fun h => hb (List.length_eq_zero.mp h)
          by_cases hc : Int.tdiv code 100 = 2
          · have hr := (tdiv_hundred code).mp hc
            simp [http.classify, hb, hc, hr.1, hr.2]
          · have hr : ¬ (200 ≤ code ∧ code ≤ 299) := fun h => hc ((tdiv_hundred code).mpr h)
            have hr2 : ¬ (¬ body = [] ∧ 200 ≤ code ∧ code ≤ 299) := fun h => hr h.2
            simp only [http.classify, hlen, hc, hb]
            simp only [not_false_eq_true, if_true, if_false, ne_eq, true_and]
            rw [if_neg hr2, if_pos hc]

/-- The plain path classifies the outcome of its GET. -/
theorem fetch_eq {W : Type} (net : http.Net W) (u : URL) (w : W) :
    http.fetch net u w = (http.classify (net.Get u w).1, (net.Get u w).2) := by
  unfold http.fetch
  exact classify_eq (net.Get u w).1 (net.Get u w).2

/-- The option-aware path fails before any request, leaving the world as it
was, or classifies the outcome of its one request. -/
theorem fetchWithOptions_eq {W : Type} (net : http.Net W) (ctx : Context) (u : URL) (w : W) :
    ((http.fetchWithOptions net ctx u w).2 = w ∧ (http.fetchWithOptions net ctx u w).1.1 = none ∧
        (http.fetchWithOptions net ctx u w).1.2 ≠ none) ∨
      ∃ tls req, http.fetchWithOptions net ctx u w =
        (http.classify (net.Do tls req w).1, (net.Do tls req w).2) := by
  unfold http.fetchWithOptions
  simp only
  split
  · left; simp
  · split
    · left; simp
    · split
      · left; simp
      · right
        exact ⟨_, _, classify_eq _ _⟩

/-- The option-aware path, case by case: a client certificate without a client
key, a certificate pair that is refused, a request that cannot be made, and
otherwise the classification of the outcome of the one request, made with the
TLS configuration and the request of the context. -/
theorem fetchWithOptions_cases {W : Type} (net : http.Net W) (ctx : Context) (u : URL) (w : W) :
    ((ctx.bytesValue .ClientCert).isSome = true → (ctx.bytesValue .ClientKey).isSome = false →
        http.fetchWithOptions net ctx u w = ((none, some (Error.other
          (str "both or neither of client certificate and client key must be specified"))),
          w)) ∧
      (∀ cert key e, ctx.bytesValue .ClientCert = some cert →
        ctx.bytesValue .ClientKey = some key → net.X509KeyPair cert key = some e →
        http.fetchWithOptions net ctx u w =
          ((none, some (Error.other (str "invalid client certificate or key"))), w)) ∧
      ((∀ cert, ctx.bytesValue .ClientCert = some cert →
          ∃ key, ctx.bytesValue .ClientKey = some key ∧ net.X509KeyPair cert key = none) →
        (∀ e, net.NewRequest (http.requestOf net ctx u).Method u (http.requestOf net ctx u).Body =
            some e →
          http.fetchWithOptions net ctx u w = ((none, some Error.ErrNotFound), w)) ∧
        (net.NewRequest (http.requestOf net ctx u).Method u (http.requestOf net ctx u).Body =
            none →
          http.fetchWithOptions net ctx u w =
            (http.classify (net.Do (http.tlsConfigOf ctx) (http.requestOf net ctx u) w).1,
              (net.Do (http.tlsConfigOf ctx) (http.requestOf net ctx u) w).2))) := by
  refine ⟨?_, ?_, ?_⟩
  · intro hc hk
    simp [http.fetchWithOptions, hc, hk]
  · intro cert key e hc hk hx
    simp [http.fetchWithOptions, hc, hk, hx]
  · intro hpass
    cases hc : ctx.bytesValue .ClientCert with
    | none =>
      have htls : http.tlsConfigOf ctx =
          { MinVersion := http.VersionTLS13, RootCAs := ctx.bytesValue .CACert,
            Certificates := [] } := by
        simp [http.tlsConfigOf, hc]
      constructor
      · intro e he
        simp only [http.requestOf] at he
        simp [http.fetchWithOptions, hc, he]
      · intro hn
        rw [htls]
        simp only [http.requestOf] at hn ⊢
        simp only [http.fetchWithOptions, hc, hn, Option.isSome_none, Bool.false_and,
          Bool.false_eq_true, if_false]
        exact classify_eq _ _
    | some cert =>
      obtain ⟨key, hk, hx⟩ := hpass cert hc
      have htls : http.tlsConfigOf ctx =
          { MinVersion := http.VersionTLS13, RootCAs := ctx.bytesValue .CACert,
            Certificates := [(cert, key)] } := by
        simp [http.tlsConfigOf, hc, hk]
      constructor
      · intro e he
        simp only [http.requestOf] at he
        simp [http.fetchWithOptions, hc, hk, hx, he]
      · intro hn
        rw [htls]
        simp only [http.requestOf] at hn ⊢
        simp only [http.fetchWithOptions, hc, hk, hx, hn, Option.isSome_some, Bool.not_true,
          Bool.and_false, Bool.false_eq_true, if_false, Option.getD_some]
        exact classify_eq _ _

/-- C16: both request paths classify the outcome of the request in the same
way.  The plain path returns the classification of the outcome of its GET.  The
option-aware path fails before any request, with the world as it was, when
there is a client certificate and no client key, when the certificate pair is
refused, or when the request cannot be made; in every other case it makes
exactly one request, with the TLS configuration and the request built from the
context, and returns the classification of its outcome.  The classification is
the body with a nil error when there is no transport error, a response, no read
error, a non-empty body and a status code `c` with `c / 100 = 2`, that is
`200 ≤ c ≤ 299`; in every other case, an empty body with status 200 among them,
it is `ErrNotFound`. -/
theorem http_classification {W : Type} (net : http.Net W) (ctx : Context) (u : URL) (w : W) :
    http.fetch net u w = (http.classify (net.Get u w).1, (net.Get u w).2) ∧
      (((ctx.bytesValue .ClientCert).isSome = true → (ctx.bytesValue .ClientKey).isSome = false →
          http.fetchWithOptions net ctx u w = ((none, some (Error.other
            (str "both or neither of client certificate and client key must be specified"))),
            w)) ∧
        (∀ cert key e, ctx.bytesValue .ClientCert = some cert →
          ctx.bytesValue .ClientKey = some key → net.X509KeyPair cert key = some e →
          http.fetchWithOptions net ctx u w =
            ((none, some (Error.other (str "invalid client certificate or key"))), w)) ∧
        ((∀ cert, ctx.bytesValue .ClientCert = some cert →
            ∃ key, ctx.bytesValue .ClientKey = some key ∧ net.X509KeyPair cert key = none) →
          (∀ e, net.NewRequest (http.requestOf net ctx u).Method u
              (http.requestOf net ctx u).Body = some e →
            http.fetchWithOptions net ctx u w = ((none, some Error.ErrNotFound), w)) ∧
          (net.NewRequest (http.requestOf net ctx u).Method u
              (http.requestOf net ctx u).Body = none →
            http.fetchWithOptions net ctx u w =
              (http.classify (net.Do (http.tlsConfigOf ctx) (http.requestOf net ctx u) w).1,
                (net.Do (http.tlsConfigOf ctx) (http.requestOf net ctx u) w).2)))) ∧
      (∀ (o : http.Outcome) (d : List UInt8), http.classify o = (some d, none) ↔
        o.err = none ∧ ∃ resp, o.resp = some resp ∧ resp.ReadErr = none ∧ resp.Body = d ∧
          d ≠ [] ∧ Int.tdiv resp.StatusCode 100 = 2) ∧
      (∀ o : http.Outcome, (∃ d, http.classify o = (some d, none)) ∨
        http.classify o = (none, some Error.ErrNotFound)) ∧
      (∀ c : Int, Int.tdiv c 100 = 2 ↔ 200 ≤ c ∧ c ≤ 299) ∧
      http.classify ⟨some { StatusCode := 200, Body := [], ReadErr := none }, none⟩ =
        (none, some Error.ErrNotFound) := by
  refine ⟨fetch_eq net u w, fetchWithOptions_cases net ctx u w, ?_, ?_, tdiv_hundred, by decide⟩
  · intro o d
    obtain ⟨resp, err⟩ := o
    cases err with
    | some e => simp [http.classify]
    | none =>
      cases resp with
      | none => simp [http.classify]
      | some r =>
        simp only [http.classify, tdiv_hundred]
        by_cases hc : r.ReadErr = none ∧ r.Body ≠ [] ∧ 200 ≤ r.StatusCode ∧ r.StatusCode ≤ 299
        · rw [if_pos hc]
          constructor
          · intro h
            simp only [Prod.mk.injEq, Option.some.injEq, and_true] at h
            subst h
            exact ⟨trivial, r, rfl, hc.1, rfl, hc.2.1, hc.2.2⟩
          · rintro ⟨_, r2, hr2, _, hb, _, _⟩
            cases hr2
            rw [hb]
        · rw [if_neg hc]
          constructor
          · intro h
            simp at h
          · rintro ⟨_, r2, hr2, h1, hb, h2, h3⟩
            cases hr2
            subst hb
            exact absurd ⟨h1, h2, h3⟩ hc
  · intro o
    obtain ⟨resp, err⟩ := o
    cases err with
    | some e => right; simp [http.classify]
    | none =>
      cases resp with
      | none => right; simp [http.classify]
      | some r =>
        simp only [http.classify]
        split
        · left; exact ⟨_, rfl⟩
        · right; rfl

/-- C16, on a recording network and a context with all six values.  With the
answer 200 "response 1" the option-aware path makes one request - POST, the body
"test", both headers "text/plain", the CA as root pool and the certificate pair
as client certificate - and returns the body, as the plain path does on its GET;
with the answer 200 and an empty body, and with the answer 404, both paths
return `ErrNotFound`. -/
theorem http_classification_witness :
    (∀ cert, http.fullContext.bytesValue .ClientCert = some cert →
        ∃ key, http.fullContext.bytesValue .ClientKey = some key ∧
          (http.replyNet ⟨some ⟨200, str "response 1", none⟩, none⟩).X509KeyPair cert key =
            none) ∧
      http.fetchWithOptions (http.replyNet ⟨some ⟨200, str "response 1", none⟩, none⟩)
          http.fullContext http.exampleURL [] =
        ((some (str "response 1"), none),
          [http.NetCall.Do
            { MinVersion := http.VersionTLS13, RootCAs := some (str "CA"),
              Certificates := [(str "CERT", str "KEY")] }
            { Method := str "POST", URL := http.exampleURL, Body := some (str "test"),
              Header := [(str "Content-type", str "text/plain"),
                (str "Accept", str "text/plain")] }]) ∧
      http.fetch (http.replyNet ⟨some ⟨200, str "response 1", none⟩, none⟩) http.exampleURL [] =
        ((some (str "response 1"), none), [http.NetCall.Get http.exampleURL]) ∧
      (http.fetchWithOptions (http.replyNet ⟨some ⟨200, [], none⟩, none⟩)
          http.fullContext http.exampleURL []).1 = (none, some Error.ErrNotFound) ∧
      (http.fetch (http.replyNet ⟨some ⟨200, [], none⟩, none⟩) http.exampleURL []).1 =
        (none, some Error.ErrNotFound) ∧
      (http.fetchWithOptions (http.replyNet ⟨some ⟨404, str "not found", none⟩, none⟩)
          http.fullContext http.exampleURL []).1 = (none, some Error.ErrNotFound) ∧
      (http.fetch (http.replyNet ⟨some ⟨404, str "not found", none⟩, none⟩)
          http.exampleURL []).1 = (none, some Error.ErrNotFound) :=
  have hpass : ∀ (o : http.Outcome) cert, http.fullContext.bytesValue .ClientCert = some cert →
      ∃ key, http.fullContext.bytesValue .ClientKey = some key ∧
        (http.replyNet o).X509KeyPair cert key = none :=
    fun _ _ _ => ⟨str "KEY", by decide, rfl⟩
  have h1 := ((http_classification (http.replyNet ⟨some ⟨200, str "response 1", none⟩, none⟩)
    http.fullContext http.exampleURL []).2.1.2.2 (hpass _)).2 rfl
  have h2 := (http_classification (http.replyNet ⟨some ⟨200, str "response 1", none⟩, none⟩)
    http.fullContext http.exampleURL []).1
  have h3 := ((http_classification (http.replyNet ⟨some ⟨200, [], none⟩, none⟩)
    http.fullContext http.exampleURL []).2.1.2.2 (hpass _)).2 rfl
  have h4 := (http_classification (http.replyNet ⟨some ⟨200, [], none⟩, none⟩)
    http.fullContext http.exampleURL []).1
  have h5 := ((http_classification (http.replyNet ⟨some ⟨404, str "not found", none⟩, none⟩)
    http.fullContext http.exampleURL []).2.1.2.2 (hpass _)).2 rfl
  have h6 := (http_classification (http.replyNet ⟨some ⟨404, str "not found", none⟩, none⟩)
    http.fullContext http.exampleURL []).1
  ⟨hpass _, h1.trans (by decide), h2.trans (by decide),
    (congrArg Prod.fst h3).trans (by decide), (congrArg Prod.fst h4).trans (by decide),
    (congrArg Prod.fst h5).trans (by decide), (congrArg Prod.fst h6).trans (by decide)⟩

/-- The two request paths on the same answer of the network (status 200, body
"response 1"): the same bytes; and the parser on the URL of the instances. -/
theorem http_paths_example :
    url.Parse (str "https://example.com/secret") = .ok http.exampleURL ∧
      (http.fetch http.recordingNet http.exampleURL []).1 = (some (str "response 1"), none) ∧
      (http.fetchWithOptions http.recordingNet
        { values := [(.HTTPMethod, .string (str "GET"))] } http.exampleURL []).1 =
        (some (str "response 1"), none) := by
  decide

/-- C17 fails on the code at a context that carries only a CA certificate:
`Fetch` takes the plain path, for every network, and the request made is a GET
on the default client, with no TLS configuration of the confidant.  The
option-aware path, had it been taken, would have made the request on a client
whose root pool is made of that certificate.  The same holds for a context that
carries only a client key.  `Fetch` takes the option-aware path exactly when a
client certificate, a method, a MIME type or a body is present. -/
theorem http_Fetch_CACert_only (pem : List UInt8) :
    Context.bytesValue { values := [(.CACert, .bytes pem)] } .CACert = some pem ∧
      (∀ (W : Type) (net : http.Net W) (u : URL) (w : W),
        http.Fetch net { values := [(.CACert, .bytes pem)] } u w = http.fetch net u w) ∧
      (http.Fetch http.recordingNet { values := [(.CACert, .bytes pem)] } http.exampleURL []).2 =
        [http.NetCall.Get http.exampleURL] ∧
      (http.fetchWithOptions http.recordingNet { values := [(.CACert, .bytes pem)] }
          http.exampleURL []).2 =
        [http.NetCall.Do
          { MinVersion := http.VersionTLS13, RootCAs := some pem, Certificates := [] }
          { Method := str "GET", URL := http.exampleURL, Body := none, Header := [] }] ∧
      (∀ (W : Type) (net : http.Net W) (ctx : Context) (u : URL) (w : W),
        http.Fetch net ctx u w =
          if (ctx.bytesValue .ClientCert).isSome || (ctx.stringValue .HTTPMethod).isSome ||
              (ctx.stringValue .MIMEType).isSome || (ctx.bytesValue .Body).isSome
          then http.fetchWithOptions net ctx u w else http.fetch net u w) :=
  ⟨rfl, fun _ _ _ _ => rfl, rfl, rfl, fun _ _ _ _ _ => rfl⟩

/-- C18 fails on the code at a context that carries a client key and no client
certificate: `Fetch` takes the plain path, for every network, so a request is
made and its answer returned; with a method as well, the option-aware path makes
its request with no client certificate.  The other half holds: with a client
certificate and no client key the call fails with the "both or neither" error
and the world is left as it was. -/
theorem http_Fetch_ClientKey_only (key : List UInt8) :
    (∀ (W : Type) (net : http.Net W) (u : URL) (w : W),
        http.Fetch net { values := [(.ClientKey, .bytes key)] } u w = http.fetch net u w) ∧
      http.Fetch http.recordingNet { values := [(.ClientKey, .bytes key)] } http.exampleURL [] =
        ((some (str "response 1"), none), [http.NetCall.Get http.exampleURL]) ∧
      http.Fetch http.recordingNet
          { values := [(.ClientKey, .bytes key), (.HTTPMethod, .string (str "GET"))] }
          http.exampleURL [] =
        ((some (str "response 1"), none),
          [http.NetCall.Do
            { MinVersion := http.VersionTLS13, RootCAs := none, Certificates := [] }
            { Method := str "GET", URL := http.exampleURL, Body := none, Header := [] }]) ∧
      (∀ (W : Type) (net : http.Net W) (ctx : Context) (u : URL) (w : W),
        (ctx.bytesValue .ClientCert).isSome = true → (ctx.bytesValue .ClientKey).isSome = false →
        http.Fetch net ctx u w =
          ((none, some (Error.other
            (str "both or neither of client certificate and client key must be specified"))),
            w)) := by
  refine ⟨fun _ _ _ _ => rfl, rfl, rfl, ?_⟩
  intro W net ctx u w hc hk
  simp [http.Fetch, http.fetchWithOptions, hc, hk]

/-! ## The secret manager confidants -/

/-- C19 fails as stated.  "asm://:secret@eu-west-1/key" carries a secret and no
ID; the confidant, created with credentials of its own, makes its request with
the static pair of the URL (an empty ID and "secret"), not with the configured
credentials; created without credentials, it makes it with that pair as well,
not with the environment's. -/
theorem asm_credentials_counterexample :
    url.Parse (str "asm://:secret@eu-west-1/key") =
        .ok { Scheme := str "asm", User := some ⟨[], str "secret", true⟩,
              Host := str "eu-west-1", Path := str "/key" } ∧
      asm.claimedCredentials asm.configured
          { Scheme := str "asm", User := some ⟨[], str "secret", true⟩,
            Host := str "eu-west-1", Path := str "/key" } =
        asm.Credentials.NewStaticCredentials (str "id0") (str "secret0") [] ∧
      (asm.Fetch asm.recordingAWS asm.configured
          { Scheme := str "asm", User := some ⟨[], str "secret", true⟩,
            Host := str "eu-west-1", Path := str "/key" } []).2 =
        [{ region := str "eu-west-1",
           credentials := asm.Credentials.NewStaticCredentials [] (str "secret") [],
           SecretId := str "key" }] ∧
      asm.claimedCredentials { credentials := none, region := [] }
          { Scheme := str "asm", User := some ⟨[], str "secret", true⟩,
            Host := str "eu-west-1", Path := str "/key" } =
        asm.Credentials.NewEnvCredentials ∧
      (asm.Fetch asm.recordingAWS { credentials := none, region := [] }
          { Scheme := str "asm", User := some ⟨[], str "secret", true⟩,
            Host := str "eu-west-1", Path := str "/key" } []).2 =
        [{ region := str "eu-west-1",
           credentials := asm.Credentials.NewStaticCredentials [] (str "secret") [],
           SecretId := str "key" }] := by
  decide

/-- C19, amended: the region is the host of the URL when that is not empty, else
the configured region; the credentials are the static pair (user name, password)
of the URL whenever the user information of the URL has a password part, with
whatever user name, else the configured credentials when set, else the
environment's.  Without a region the call fails with "no region specified", with
an empty path with "no secret specified", both before anything is requested;
otherwise a session is made for that region and those credentials, and the one
request on it is for the path without its leading "/". -/
theorem asm_Fetch_request {W : Type} (aws : asm.AWS W) (s : asm.Service) (u : URL) (w : W)
    (region : GoString) (creds : asm.Credentials)
    (hregion : region = if u.Host = [] then s.region else u.Host)
    (hcreds : creds = if u.Password.2 = true
      then asm.Credentials.NewStaticCredentials u.Username u.Password.1 []
      else s.credentials.getD asm.Credentials.NewEnvCredentials) :
    (region = [] →
        asm.Fetch aws s u w = ((none, some (Error.other (str "no region specified"))), w)) ∧
      (region ≠ [] → u.Path = [] →
        asm.Fetch aws s u w = ((none, some (Error.other (str "no secret specified"))), w)) ∧
      (region ≠ [] → u.Path ≠ [] →
        (∀ err, aws.NewSession region creds = some err →
          asm.Fetch aws s u w = ((none, some (Error.wrap err
            (str "failed to initiate session with Amazon secrets manager"))), w)) ∧
        (aws.NewSession region creds = none →
          (asm.Fetch aws s u w).2 =
            (aws.GetSecretValue region creds
              (if u.Path.head? = some 47 then u.Path.tail else u.Path) w).2)) := by
  have hc2 : creds = (if u.Password.2 = true
      then asm.Credentials.NewStaticCredentials u.Username u.Password.1 []
      else match s.credentials with
        | some c => c
        | none => asm.Credentials.NewEnvCredentials) := by
    rw [hcreds]
    cases s.credentials <;> rfl
  refine ⟨?_, ?_, ?_⟩
  · intro h0
    rw [hregion] at h0
    simp [asm.Fetch, h0]
  · intro h0 hp
    rw [hregion] at h0
    simp [asm.Fetch, h0, hp]
  · intro h0 hp
    rw [hregion] at h0
    constructor
    · intro err herr
      rw [hc2, hregion] at herr
      simp only [asm.Fetch, h0, hp, if_false, herr]
    · intro hok
      rw [hc2, hregion] at hok
      rw [hc2, hregion, ← TrimPrefix_slash]
      simp only [asm.Fetch, h0, hp, if_false, hok]
      repeat' split
      all_goals rfl

/-- C19 amended, at the URL of "asm://:secret@/key" on the service of
`TestOverrides`: the configured region, the static pair of the URL, the secret
"key". -/
theorem asm_Fetch_request_witness :
    str "eu-west-1" = (if (str "" : GoString) = [] then asm.configured.region else str "") ∧
      (asm.Fetch asm.recordingAWS asm.configured
          { Scheme := str "asm", User := some ⟨[], str "secret", true⟩, Path := str "/key" }
          []).2 =
        [{ region := str "eu-west-1",
           credentials := asm.Credentials.NewStaticCredentials [] (str "secret") [],
           SecretId := str "key" }] :=
  ⟨by decide,
    ((asm_Fetch_request asm.recordingAWS asm.configured
      { Scheme := str "asm", User := some ⟨[], str "secret", true⟩, Path := str "/key" } []
      (str "eu-west-1") (asm.Credentials.NewStaticCredentials [] (str "secret") [])
      (by decide) (by decide)).2.2 (by decide) (by decide)).2 rfl⟩

/-- C20: the Google confidant validates before it calls anything, in a fixed
order.  With an empty host and no configured project it fails with "no project
specified"; otherwise, with a path that is empty or "/", it fails with "no secret
specified"; in both cases the world is as it was.  Otherwise a client is
created, and the one request on it is for the secret named
"projects/P/secrets/S/versions/latest", `P` the host or else the configured
project and `S` the path without one leading "/". -/
theorem gsm_Fetch_validation {W : Type} (gcp : gsm.GCP W) (s : gsm.Service) (u : URL) (w : W)
    (project : GoString) (hproject : project = if u.Host = [] then s.project else u.Host) :
    (project = [] →
        gsm.Fetch gcp s u w = ((none, some (Error.other (str "no project specified"))), w)) ∧
      (project ≠ [] → (u.Path = [] ∨ u.Path = str "/") →
        gsm.Fetch gcp s u w = ((none, some (Error.other (str "no secret specified"))), w)) ∧
      (project ≠ [] → u.Path ≠ [] → u.Path ≠ str "/" →
        (∀ err, (gcp.NewClient s.credentialsPath w).1 = some err →
          gsm.Fetch gcp s u w =
            ((none, some (Error.wrap err (str "failed to create client connection"))),
              (gcp.NewClient s.credentialsPath w).2)) ∧
        ((gcp.NewClient s.credentialsPath w).1 = none →
          (gsm.Fetch gcp s u w).2 =
            (gcp.AccessSecretVersion s.credentialsPath
              (str "projects/" ++ project ++ str "/secrets/" ++
                (if u.Path.head? = some 47 then u.Path.tail else u.Path) ++
                str "/versions/latest")
              (gcp.NewClient s.credentialsPath w).2).2)) := by
  refine ⟨?_, ?_, ?_⟩
  · intro h0
    rw [hproject] at h0
    simp [gsm.Fetch, h0]
  · intro h0 hp
    rw [hproject] at h0
    have ht := (TrimPrefix_slash_nil u.Path).mpr hp
    simp [gsm.Fetch, h0, ht]
  · intro h0 hp1 hp2
    rw [hproject] at h0
    have ht : TrimPrefix u.Path (str "/") ≠ [] := fun h =>
      (TrimPrefix_slash_nil u.Path).mp h |>.elim hp1 hp2
    constructor
    · intro err herr
      simp only [gsm.Fetch, h0, ht, if_false, herr]
    · intro hok
      rw [hproject, ← TrimPrefix_slash]
      simp only [gsm.Fetch, h0, ht, if_false, hok]
      repeat' split
      all_goals rfl

/-- C20, on the keys of the confidant's test with the project "proj" and the
secret "key": no project, no secret (twice), and the request for
"projects/proj/secrets/key/versions/latest". -/
theorem gsm_Fetch_validation_witness :
    url.Parse (str "gsm:///key") = .ok { Scheme := str "gsm", Path := str "/key" } ∧
      gsm.Fetch gsm.recordingGCP { credentialsPath := str "/creds.json", project := [] }
          { Scheme := str "gsm", Path := str "/key" } [] =
        ((none, some (Error.other (str "no project specified"))), []) ∧
      gsm.Fetch gsm.recordingGCP { credentialsPath := str "/creds.json", project := [] }
          { Scheme := str "gsm", Host := str "proj" } [] =
        ((none, some (Error.other (str "no secret specified"))), []) ∧
      gsm.Fetch gsm.recordingGCP { credentialsPath := str "/creds.json", project := [] }
          { Scheme := str "gsm", Host := str "proj", Path := str "/" } [] =
        ((none, some (Error.other (str "no secret specified"))), []) ∧
      (gsm.Fetch gsm.recordingGCP { credentialsPath := str "/creds.json", project := [] }
          { Scheme := str "gsm", Host := str "proj", Path := str "/key" } []).2 =
        [gsm.Call.NewClient (str "/creds.json"),
          gsm.Call.AccessSecretVersion (str "projects/proj/secrets/key/versions/latest")] :=
  ⟨by decide,
    (gsm_Fetch_validation gsm.recordingGCP { credentialsPath := str "/creds.json", project := [] }
      { Scheme := str "gsm", Path := str "/key" } [] [] (by decide)).1 rfl,
    (gsm_Fetch_validation gsm.recordingGCP { credentialsPath := str "/creds.json", project := [] }
      { Scheme := str "gsm", Host := str "proj" } [] (str "proj") (by decide)).2.1
      (by decide) (Or.inl rfl),
    (gsm_Fetch_validation gsm.recordingGCP { credentialsPath := str "/creds.json", project := [] }
      { Scheme := str "gsm", Host := str "proj", Path := str "/" } [] (str "proj")
      (by decide)).2.1 (by decide) (Or.inr (by decide)),
    ((gsm_Fetch_validation gsm.recordingGCP
      { credentialsPath := str "/creds.json", project := [] }
      { Scheme := str "gsm", Host := str "proj", Path := str "/key" } [] (str "proj")
      (by decide)).2.2 (by decide) (by decide) (by decide)).2 rfl⟩

/-! ## RegisterConfidant: degenerate scheme lists -/

/-- C21: a confidant that advertises the same scheme twice conflicts with
itself.  When `a` is unbound and the advertised list is `a`, `a`, the call
returns the error "scheme a already registered by another confidant", and the
failed call has changed the map: `a` is bound to the confidant afterwards, every
other scheme is as before. -/
theorem RegisterConfidant_twice {W : Type} (s : Service W) (ctx : Context)
    (c : Confidant W) (w : World W) (a : GoString)
    (hfree : s.confidants a = none)
    (hadv : (c.SupportedURLSchemes ctx w.state).1 = ([a, a], none)) :
    (s.RegisterConfidant ctx c w).1 = some (Error.other (str "scheme " ++ a ++
        str " already registered by another confidant")) ∧
      (s.RegisterConfidant ctx c w).2.1.confidants a = some c ∧
      (∀ k, k ≠ a → (s.RegisterConfidant ctx c w).2.1.confidants k = s.confidants k) ∧
      (s.RegisterConfidant ctx c w).2.1.confidants ≠ s.confidants := by
  have hreg : s.RegisterConfidant ctx c w =
      ((registerSchemes c [a, a] s.confidants).1,
        { confidants := (registerSchemes c [a, a] s.confidants).2 },
        (callSupportedURLSchemes c ctx w).2) := by
    simp [Service.RegisterConfidant, callSupportedURLSchemes, hadv]
  have hloop : registerSchemes c [a, a] s.confidants =
      (some (Error.other (str "scheme " ++ a ++
        str " already registered by another confidant")), mapSet s.confidants a c) := by
    simp [registerSchemes, hfree, mapSet]
  rw [hreg, hloop]
  refine ⟨rfl, by simp [mapSet], ?_, ?_⟩
  · intro k hk
    simp [mapSet, hk]
  · intro h
    have ha := congrFun h a
    simp [mapSet, hfree] at ha

/-- C21, on the service of `TestRegister` and a confidant advertising "a"
twice: the call fails and "a" is bound to that confidant. -/
theorem RegisterConfidant_twice_witness :
    mockService.confidants (str "a") = none ∧
      (twiceConfidant.SupportedURLSchemes {} 0).1 = ([str "a", str "a"], none) ∧
      (mockService.RegisterConfidant {} twiceConfidant (World.init 0)).1 =
        some (Error.other (str "scheme a already registered by another confidant")) ∧
      (mockService.RegisterConfidant {} twiceConfidant (World.init 0)).2.1.confidants (str "a") =
        some twiceConfidant :=
  have h := RegisterConfidant_twice mockService {} twiceConfidant (World.init 0) (str "a") rfl rfl
  ⟨rfl, rfl, by decide, h.2.1⟩

/-- C22: when `SupportedURLSchemes` returns an error, `RegisterConfidant`
returns that error wrapped with "failed to obtain supported URL schemes from
confidant" and the map is as it was; when it returns an empty list with no
error, `RegisterConfidant` returns nil and the map is as it was. -/
theorem RegisterConfidant_no_schemes {W : Type} (s : Service W) (ctx : Context)
    (c : Confidant W) (w : World W) :
    (∀ err, (c.SupportedURLSchemes ctx w.state).1.2 = some err →
        (s.RegisterConfidant ctx c w).1 = some (Error.wrap err
          (str "failed to obtain supported URL schemes from confidant")) ∧
        (s.RegisterConfidant ctx c w).2.1.confidants = s.confidants) ∧
      ((c.SupportedURLSchemes ctx w.state).1 = ([], none) →
        (s.RegisterConfidant ctx c w).1 = none ∧
        (s.RegisterConfidant ctx c w).2.1.confidants = s.confidants) := by
  constructor
  · intro err herr
    simp [Service.RegisterConfidant, callSupportedURLSchemes, herr]
  · intro hadv
    simp [Service.RegisterConfidant, callSupportedURLSchemes, hadv, registerSchemes]

/-- C22, on the service of `TestRegister`: a confidant whose scheme query fails
with "not ready", and a confidant with no scheme. -/
theorem RegisterConfidant_no_schemes_witness :
    (brokenConfidant.SupportedURLSchemes {} 0).1.2 = some (Error.other (str "not ready")) ∧
      (mockService.RegisterConfidant {} brokenConfidant (World.init 0)).1 =
        some (Error.wrap (Error.other (str "not ready"))
          (str "failed to obtain supported URL schemes from confidant")) ∧
      (mockService.RegisterConfidant {} brokenConfidant (World.init 0)).2.1.confidants =
        mockService.confidants ∧
      (noSchemeConfidant.SupportedURLSchemes {} 0).1 = ([], none) ∧
      (mockService.RegisterConfidant {} noSchemeConfidant (World.init 0)).1 = none ∧
      (mockService.RegisterConfidant {} noSchemeConfidant (World.init 0)).2.1.confidants =
        mockService.confidants :=
  have h1 := (RegisterConfidant_no_schemes mockService {} brokenConfidant (World.init 0)).1
    (Error.other (str "not ready")) rfl
  have h2 := (RegisterConfidant_no_schemes mockService {} noSchemeConfidant (World.init 0)).2 rfl
  ⟨rfl, h1.1, h1.2, rfl, h2.1, h2.2⟩

/-! ## The built-in confidants -/

/-- Registering a confidant whose distinct schemes are all unbound: the call
succeeds, binds them, and leaves every other scheme as it was. -/
theorem RegisterConfidant_fresh {W : Type} (s : Service W) (ctx : Context)
    (c : Confidant W) (w : World W) (schemes : List GoString)
    (hadv : (c.SupportedURLSchemes ctx w.state).1 = (schemes, none))
    (hnodup : schemes.Nodup) (hfree : ∀ k ∈ schemes, s.confidants k = none) :
    (s.RegisterConfidant ctx c w).1 = none ∧
      (∀ k ∈ schemes, (s.RegisterConfidant ctx c w).2.1.confidants k = some c) ∧
      (∀ k, k ∉ schemes → (s.RegisterConfidant ctx c w).2.1.confidants k = s.confidants k) := by
  have hreg : s.RegisterConfidant ctx c w =
      ((registerSchemes c schemes s.confidants).1,
        { confidants := (registerSchemes c schemes s.confidants).2 },
        (callSupportedURLSchemes c ctx w).2) := by
    simp [Service.RegisterConfidant, callSupportedURLSchemes, hadv]
  have h := registerSchemes_fresh c schemes s.confidants hnodup hfree
  rw [hreg]
  exact ⟨h.1, h.2, fun k hk => registerSchemes_not_mem c schemes s.confidants k hk⟩

/-- Registering, in the order of the list, confidants whose scheme lists (`adv`)
are duplicate-free, pairwise disjoint and unbound: every call succeeds, every
scheme is bound to the confidant that advertises it, and every other scheme is
as it was. -/
theorem registerAll_disjoint {W : Type} (ctx : Context) (adv : Confidant W → List GoString) :
    ∀ (cs : List (Confidant W)) (s : Service W) (w : World W),
      (∀ c ∈ cs, ∀ st, (c.SupportedURLSchemes ctx st).1 = (adv c, none)) →
      (∀ c ∈ cs, (adv c).Nodup) →
      cs.Pairwise (fun c d => ∀ k ∈ adv c, k ∉ adv d) →
      (∀ c ∈ cs, ∀ k ∈ adv c, s.confidants k = none) →
      (∀ e ∈ (registerAll ctx cs s w).1, e = none) ∧
        (∀ c ∈ cs, ∀ k ∈ adv c, (registerAll ctx cs s w).2.1.confidants k = some c) ∧
        (∀ k, (∀ c ∈ cs, k ∉ adv c) →
          (registerAll ctx cs s w).2.1.confidants k = s.confidants k) := by
  intro cs
  induction cs with
  | nil =>
    intro s w _ _ _ _
    refine ⟨?_, ?_, ?_⟩
    · intro e he; cases he
    · intro c hc; cases hc
    · intro k _; rfl
  | cons c rest ih =>
    intro s w hadv hnd hpw hfree
    have hc := RegisterConfidant_fresh s ctx c w (adv c) (hadv c (List.mem_cons_self _ _) _)
      (hnd c (List.mem_cons_self _ _)) (hfree c (List.mem_cons_self _ _))
    have hpw2 := List.pairwise_cons.mp hpw
    have hfree2 : ∀ d ∈ rest, ∀ k ∈ adv d,
        (s.RegisterConfidant ctx c w).2.1.confidants k = none := by
      intro d hd k hk
      have hkc : k ∉ adv c := fun hkc => hpw2.1 d hd k hkc hk
      rw [hc.2.2 k hkc]
      exact hfree d (List.mem_cons_of_mem _ hd) k hk
    have h := ih (s.RegisterConfidant ctx c w).2.1 (s.RegisterConfidant ctx c w).2.2
      (fun d hd => hadv d (List.mem_cons_of_mem _ hd))
      (fun d hd => hnd d (List.mem_cons_of_mem _ hd)) hpw2.2 hfree2
    refine ⟨?_, ?_, ?_⟩
    · intro e he
      simp only [registerAll, List.mem_cons] at he
      rcases he with he | he
      · rw [he]; exact hc.1
      · exact h.1 e he
    · intro d hd k hk
      simp only [registerAll]
      rcases List.mem_cons.mp hd with hdc | hdr
      · subst hdc
        rw [h.2.2 k (fun e he hke => hpw2.1 e he k hk hke)]
        exact hc.2.1 k hk
      · exact h.2.1 d hdr k hk
    · intro k hk
      simp only [registerAll]
      rw [h.2.2 k (fun d hd => hk d (List.mem_cons_of_mem _ hd))]
      exact hc.2.2 k (hk c (List.mem_cons_self _ _))

/-- One error value is returned for each confidant registered. -/
theorem registerAll_length {W : Type} (ctx : Context) :
    ∀ (cs : List (Confidant W)) (s : Service W) (w : World W),
      (registerAll ctx cs s w).1.length = cs.length := by
  intro cs
  induction cs with
  | nil => intro s w; rfl
  | cons c rest ih =>
    intro s w
    simp [registerAll, ih]

/-- C23: the five built-in confidants never conflict.  Their scheme lists are
"direct"; "file"; "http", "https"; "asm"; "gsm": each without duplicates, and
pairwise disjoint.  There are 120 orders of the five, and in every one of them,
registering all five into a new service, every call returns nil and exactly the
six schemes are bound afterwards, each to the confidant that advertises it. -/
theorem builtIn_register_all_orders {W : Type} (os : file.OS W) (net : http.Net W)
    (aws : asm.AWS W) (sa : asm.Service) (gcp : gsm.GCP W) (sg : gsm.Service)
    (ctx : Context) (w : World W) :
    (builtIn os net aws sa gcp sg).map (fun c => (c.SupportedURLSchemes ctx w.state).1) =
        [([str "direct"], none), ([str "file"], none), ([str "http", str "https"], none),
          ([str "asm"], none), ([str "gsm"], none)] ∧
      (∀ l ∈ [[str "direct"], [str "file"], [str "http", str "https"], [str "asm"], [str "gsm"]],
        l.Nodup) ∧
      [[str "direct"], [str "file"], [str "http", str "https"], [str "asm"],
        [str "gsm"]].Pairwise (fun l1 l2 => ∀ k ∈ l1, k ∉ l2) ∧
      (builtIn os net aws sa gcp sg).permutations.length = 120 ∧
      ∀ p ∈ (builtIn os net aws sa gcp sg).permutations,
        (registerAll ctx p (New W) w).1.length = 5 ∧
        (∀ e ∈ (registerAll ctx p (New W) w).1, e = none) ∧
        (∀ k, ((registerAll ctx p (New W) w).2.1.confidants k).isSome = true ↔
          k ∈ [str "direct", str "file", str "http", str "https", str "asm", str "gsm"]) ∧
        (registerAll ctx p (New W) w).2.1.confidants (str "direct") = some (direct.Service W) ∧
        (registerAll ctx p (New W) w).2.1.confidants (str "file") = some (file.Service os) ∧
        (registerAll ctx p (New W) w).2.1.confidants (str "http") = some (http.Service net) ∧
        (registerAll ctx p (New W) w).2.1.confidants (str "https") = some (http.Service net) ∧
        (registerAll ctx p (New W) w).2.1.confidants (str "asm") =
          some (asm.Confidant aws sa) ∧
        (registerAll ctx p (New W) w).2.1.confidants (str "gsm") =
          some (gsm.Confidant gcp sg) := by
  have hnd : ∀ l ∈ [[str "direct"], [str "file"], [str "http", str "https"], [str "asm"],
      [str "gsm"]], l.Nodup := by decide
  have hpw : [[str "direct"], [str "file"], [str "http", str "https"], [str "asm"],
      [str "gsm"]].Pairwise (fun l1 l2 => ∀ k ∈ l1, k ∉ l2) := by decide
  refine ⟨rfl, hnd, hpw, ?_, ?_⟩
  · rw [List.length_permutations]
    rfl
  · intro p hp
    have hperm : p.Perm (builtIn os net aws sa gcp sg) := List.mem_permutations.mp hp
    have hmem : ∀ c, c ∈ p ↔ c = direct.Service W ∨ c = file.Service os ∨
        c = http.Service net ∨ c = asm.Confidant aws sa ∨ c = gsm.Confidant gcp sg := by
      intro c
      rw [hperm.mem_iff]
      simp [builtIn]
    have hadv : ∀ c ∈ p, ∀ st, (c.SupportedURLSchemes ctx st).1 =
        ((c.SupportedURLSchemes ctx w.state).1.1, none) := by
      intro c hc st
      rcases (hmem c).mp hc with h | h | h | h | h <;> subst h <;> rfl
    have hin : ∀ c ∈ p, (c.SupportedURLSchemes ctx w.state).1.1 ∈
        [[str "direct"], [str "file"], [str "http", str "https"], [str "asm"], [str "gsm"]] := by
      intro c hc
      rcases (hmem c).mp hc with h | h | h | h | h <;> subst h
      · exact List.mem_cons_self _ _
      · exact List.mem_cons_of_mem _ (List.mem_cons_self _ _)
      · exact List.mem_cons_of_mem _ (List.mem_cons_of_mem _ (List.mem_cons_self _ _))
      · exact List.mem_cons_of_mem _ (List.mem_cons_of_mem _
          (List.mem_cons_of_mem _ (List.mem_cons_self _ _)))
      · exact List.mem_cons_of_mem _ (List.mem_cons_of_mem _
          (List.mem_cons_of_mem _ (List.mem_cons_of_mem _ (List.mem_cons_self _ _))))
    have hpw0 : (builtIn os net aws sa gcp sg).Pairwise (fun c d =>
        ∀ k ∈ (c.SupportedURLSchemes ctx w.state).1.1,
          k ∉ (d.SupportedURLSchemes ctx w.state).1.1) := by
      have h0 := (List.pairwise_map (f := fun c : Confidant W =>
        (c.SupportedURLSchemes ctx w.state).1.1)
        (R := fun l1 l2 : List GoString => ∀ k ∈ l1, k ∉ l2)
        (l := builtIn os net aws sa gcp sg)).mp
      exact h0 hpw
    have hpw1 := hperm.symm.pairwise hpw0 (fun h k hk hk2 => h k hk2 hk)
    have h := registerAll_disjoint ctx (fun c => (c.SupportedURLSchemes ctx w.state).1.1)
      p (New W) w hadv (fun c hc => hnd _ (hin c hc)) hpw1 (fun _ _ _ _ => rfl)
    have hlen : (registerAll ctx p (New W) w).1.length = 5 := by
      rw [registerAll_length, hperm.length_eq]
      rfl
    refine ⟨hlen, h.1, ?_,
      h.2.1 _ ((hmem _).mpr (Or.inl rfl)) _ (List.mem_cons_self _ _),
      h.2.1 _ ((hmem _).mpr (Or.inr (Or.inl rfl))) _ (List.mem_cons_self _ _),
      h.2.1 _ ((hmem _).mpr (Or.inr (Or.inr (Or.inl rfl)))) _ (List.mem_cons_self _ _),
      h.2.1 _ ((hmem _).mpr (Or.inr (Or.inr (Or.inl rfl)))) _
        (List.mem_cons_of_mem _ (List.mem_cons_self _ _)),
      h.2.1 _ ((hmem _).mpr (Or.inr (Or.inr (Or.inr (Or.inl rfl))))) _ (List.mem_cons_self _ _),
      h.2.1 _ ((hmem _).mpr (Or.inr (Or.inr (Or.inr (Or.inr rfl))))) _ (List.mem_cons_self _ _)⟩
    intro k
    constructor
    · intro hk
      by_contra hnot
      have hnone : (registerAll ctx p (New W) w).2.1.confidants k = none := by
        rw [h.2.2 k]
        · rfl
        · intro c hc hkc
          apply hnot
          rcases (hmem c).mp hc with h1 | h1 | h1 | h1 | h1 <;> subst h1 <;>
            simp only [direct.Service, file.Service, http.Service, asm.Confidant, gsm.Confidant,
              direct.SupportedURLSchemes, file.SupportedURLSchemes, http.SupportedURLSchemes,
              asm.SupportedURLSchemes, gsm.SupportedURLSchemes, List.mem_cons,
              List.mem_singleton, List.not_mem_nil, or_false] at hkc <;>
            first
              | (simp [hkc]; done)
              | (rcases hkc with h2 | h2 <;> simp [h2])
      rw [hnone] at hk
      cases hk
    · intro hk
      simp only [List.mem_cons, List.mem_singleton, List.not_mem_nil, or_false] at hk
      rcases hk with h1 | h1 | h1 | h1 | h1 | h1 <;> subst h1
      · rw [h.2.1 _ ((hmem _).mpr (Or.inl rfl)) _ (List.mem_cons_self _ _)]; rfl
      · rw [h.2.1 _ ((hmem _).mpr (Or.inr (Or.inl rfl))) _ (List.mem_cons_self _ _)]; rfl
      · rw [h.2.1 _ ((hmem _).mpr (Or.inr (Or.inr (Or.inl rfl)))) _ (List.mem_cons_self _ _)]
        rfl
      · rw [h.2.1 _ ((hmem _).mpr (Or.inr (Or.inr (Or.inl rfl)))) _
          (List.mem_cons_of_mem _ (List.mem_cons_self _ _))]
        rfl
      · rw [h.2.1 _ ((hmem _).mpr (Or.inr (Or.inr (Or.inr (Or.inl rfl))))) _
          (List.mem_cons_self _ _)]
        rfl
      · rw [h.2.1 _ ((hmem _).mpr (Or.inr (Or.inr (Or.inr (Or.inr rfl))))) _
          (List.mem_cons_self _ _)]
        rfl

/-- C23, at the five confidants in reverse order, with nothing reachable: the
five calls return nil and "https" is bound to the HTTP confidant. -/
theorem builtIn_register_all_orders_witness :
    builtInReversed ∈
        (builtIn file.testOS http.offlineNet asm.offlineAWS ⟨none, []⟩ gsm.offlineGCP
          ⟨[], []⟩).permutations ∧
      (registerAll {} builtInReversed (New Unit) (World.init ())).1 =
        [none, none, none, none, none] ∧
      (registerAll {} builtInReversed (New Unit) (World.init ())).2.1.confidants (str "https") =
        some (http.Service http.offlineNet) :=
  have hp : builtInReversed ∈
      (builtIn file.testOS http.offlineNet asm.offlineAWS ⟨none, []⟩ gsm.offlineGCP
        ⟨[], []⟩).permutations :=
    List.mem_permutations.mpr
      (List.reverse_perm (builtIn file.testOS http.offlineNet asm.offlineAWS ⟨none, []⟩
        gsm.offlineGCP ⟨[], []⟩))
  ⟨hp, by decide,
    ((builtIn_register_all_orders file.testOS http.offlineNet asm.offlineAWS ⟨none, []⟩
      gsm.offlineGCP ⟨[], []⟩ {} (World.init ())).2.2.2.2 builtInReversed hp).2.2.2.2.2.2.1⟩

/-! ## The schemes that are looked up -/

/-- The loop of `getScheme` returns a scheme made of scheme bytes. -/
theorem getSchemeLoop_bytes (raw : GoString) : ∀ (rest pre : GoString) (r : GoString × GoString),
    url.getSchemeLoop raw pre rest = some r → (∀ b ∈ pre, isSchemeByte b = true) →
      ∀ b ∈ r.1, isSchemeByte b = true := by
  intro rest
  induction rest with
  | nil =>
    intro pre r h _ b hb
    simp only [url.getSchemeLoop, Option.some.injEq] at h
    rw [← h] at hb
    cases hb
  | cons c rest ih =>
    intro pre r h hpre b hb
    rw [url.getSchemeLoop] at h
    by_cases hl : url.isLetter c = true
    · rw [if_pos hl] at h
      refine ih (c :: pre) r h ?_ b hb
      intro x hx
      rcases List.mem_cons.mp hx with hx | hx
      · rw [hx]; simp [isSchemeByte, hl]
      · exact hpre x hx
    · rw [if_neg hl] at h
      by_cases hd : (url.isDigit c || c == 43 || c == 45 || c == 46) = true
      · rw [if_pos hd] at h
        by_cases hp : pre = []
        · rw [if_pos hp] at h
          simp only [Option.some.injEq] at h
          rw [← h] at hb
          cases hb
        · rw [if_neg hp] at h
          refine ih (c :: pre) r h ?_ b hb
          intro x hx
          rcases List.mem_cons.mp hx with hx | hx
          · rw [hx]
            have hl2 : url.isLetter c = false := by simpa using hl
            simpa [isSchemeByte, hl2] using hd
          · exact hpre x hx
      · rw [if_neg hd] at h
        by_cases hcol : (c == 58) = true
        · rw [if_pos hcol] at h
          by_cases hp : pre = []
          · rw [if_pos hp] at h
            cases h
          · rw [if_neg hp] at h
            simp only [Option.some.injEq] at h
            rw [← h] at hb
            exact hpre b (List.mem_reverse.mp hb)
        · rw [if_neg hcol] at h
          simp only [Option.some.injEq] at h
          rw [← h] at hb
          cases hb

/-- The function `getScheme` returns a scheme made of scheme bytes. -/
theorem getScheme_bytes (raw scheme rest : GoString)
    (h : url.getScheme raw = .ok (scheme, rest)) : ∀ b ∈ scheme, isSchemeByte b = true := by
  unfold url.getScheme at h
  cases hl : url.getSchemeLoop raw [] raw with
  | none => simp [hl] at h
  | some r =>
    simp only [hl, Except.ok.injEq] at h
    have hb := getSchemeLoop_bytes raw raw [] r hl (fun b hb => by cases hb)
    rw [h] at hb
    exact hb

set_option maxRecDepth 100000 in
/-- Lower-casing a scheme byte gives a lower-case letter, a digit, "+", "-" or
".", byte by byte. -/
theorem lower_byte_fin : ∀ n : Fin 256, isSchemeByte (UInt8.mk (BitVec.ofFin n)) = true →
    isLowerSchemeByte (if (65 ≤ UInt8.mk (BitVec.ofFin n) && UInt8.mk (BitVec.ofFin n) ≤ 90) = true
      then UInt8.mk (BitVec.ofFin n) + 32 else UInt8.mk (BitVec.ofFin n)) = true := by
  decide

set_option maxRecDepth 100000 in
/-- A byte of a lower-cased scheme is not an upper-case letter, byte by byte. -/
theorem lower_not_upper_fin : ∀ n : Fin 256,
    isLowerSchemeByte (UInt8.mk (BitVec.ofFin n)) = true →
      (65 ≤ UInt8.mk (BitVec.ofFin n) && UInt8.mk (BitVec.ofFin n) ≤ 90) = false := by
  decide

/-- The lower-cased scheme is made of lower-case letters, digits, "+", "-" and
".". -/
theorem ToLower_bytes (scheme : GoString) (h : ∀ b ∈ scheme, isSchemeByte b = true) :
    (url.ToLower scheme).all isLowerSchemeByte = true := by
  simp only [url.ToLower, List.all_eq_true, List.mem_map]
  rintro x ⟨c, hc, rfl⟩
  have hs := h c hc
  obtain ⟨⟨n⟩⟩ := c
  exact lower_byte_fin n hs

/-- A string of lower-case letters, digits, "+", "-" and "." has no upper-case
letter. -/
theorem hasUpper_of_lower (s : GoString) (h : s.all isLowerSchemeByte = true) :
    hasUpper s = false := by
  simp only [hasUpper, List.any_eq_false]
  intro x hx
  have hl := List.all_eq_true.mp h x hx
  obtain ⟨⟨n⟩⟩ := x
  simp [lower_not_upper_fin n hl]

/-- The scheme of a URL that `parse` returns is made of lower-case letters,
digits, "+", "-" and ".". -/
theorem parse_Scheme_lower (raw : GoString) (u : URL) (h : url.parse raw = .ok u) :
    u.Scheme.all isLowerSchemeByte = true := by
  by_cases hstar : raw = str "*"
  · subst hstar
    have h2 : url.parse (str "*") = .ok { Path := str "*" } := by decide
    rw [h2] at h
    cases h
    rfl
  · cases hg : url.getScheme raw with
    | error e =>
      unfold url.parse at h
      rw [hg] at h
      simp only [hstar, if_false] at h
      split at h <;> cases h
    | ok r =>
      obtain ⟨scheme, rest0⟩ := r
      rw [parse_Scheme raw scheme rest0 u hstar hg h]
      exact ToLower_bytes scheme (getScheme_bytes raw scheme rest0 hg)

/-- The scheme of a URL that the library parser returns is made of lower-case
letters, digits, "+", "-" and ".". -/
theorem Parse_Scheme_lower (key : GoString) (u : URL) (h : url.Parse key = .ok u) :
    u.Scheme.all isLowerSchemeByte = true := by
  unfold url.Parse at h
  cases hp : url.parse (url.Cut key (str "#")).1 with
  | error e => simp [hp] at h
  | ok u0 =>
    have h0 := parse_Scheme_lower _ u0 hp
    simp only [hp] at h
    split at h
    · cases h
      exact h0
    · split at h
      · cases h
      · rename_i u2 hf
        cases h
        rw [setFragment_Scheme _ _ _ hf]
        exact h0

/-- C24: the schemes `Fetch` looks up are non-empty and lower-case.  The scheme
of every URL the library parser returns is made of lower-case letters, digits,
"+", "-" and ".", so it has no upper-case letter.  For every key, either the
result of `Fetch` is the same on every registry (nothing is looked up), or the
key parses to a URL whose scheme is non-empty and has no upper-case letter, and
the result is the same on every registry with the same binding of that scheme
(that scheme is what is looked up).  Hence a confidant bound only under schemes
that are empty or have an upper-case letter is never invoked: `Fetch` leaves the
world as it was or invokes a different confidant. -/
theorem Fetch_lookup_lowercase {W : Type} (sv : Service W) (ctx : Context) (key : GoString)
    (w : World W) :
    (∀ u, url.Parse key = .ok u →
        u.Scheme.all isLowerSchemeByte = true ∧ hasUpper u.Scheme = false) ∧
      ((∀ sv2 : Service W, sv2.Fetch url.Parse ctx key w = sv.Fetch url.Parse ctx key w) ∨
        ∃ u, url.Parse key = .ok u ∧ u.Scheme ≠ [] ∧ hasUpper u.Scheme = false ∧
          ∀ sv2 : Service W, sv2.confidants u.Scheme = sv.confidants u.Scheme →
            sv2.Fetch url.Parse ctx key w = sv.Fetch url.Parse ctx key w) ∧
      (∀ c : Confidant W, (∀ k, sv.confidants k = some c → k = [] ∨ hasUpper k = true) →
        (sv.Fetch url.Parse ctx key w).2 = w ∨
          ∃ c2 u, c2 ≠ c ∧ (sv.Fetch url.Parse ctx key w).2 = (callFetch c2 ctx u w).2) := by
  have hlow : ∀ u, url.Parse key = .ok u →
      u.Scheme.all isLowerSchemeByte = true ∧ hasUpper u.Scheme = false := by
    intro u hu
    have h1 := Parse_Scheme_lower key u hu
    exact ⟨h1, hasUpper_of_lower _ h1⟩
  refine ⟨hlow, ?_, ?_⟩
  · by_cases hk : key = []
    · left; intro sv2; simp [Service.Fetch, hk]
    · by_cases hc : Contains key (str "://") = true
      · cases hp : url.Parse key with
        | error e => left; intro sv2; simp [Service.Fetch, hk, hc, hp]
        | ok u =>
          by_cases hs : u.Scheme = []
          · left; intro sv2; simp [Service.Fetch, hk, hc, hp, hs]
          · right
            refine ⟨u, rfl, hs, (hlow u hp).2, ?_⟩
            intro sv2 h2
            simp only [Service.Fetch, hk, hc, hp, hs, h2, if_false, Bool.not_true,
              Bool.false_eq_true]
      · left; intro sv2
        have hc2 : Contains key (str "://") = false := by simpa using hc
        simp [Service.Fetch, hk, hc2]
  · intro c hbound
    by_cases hk : key = []
    · left; simp [Service.Fetch, hk]
    · by_cases hc : Contains key (str "://") = true
      · cases hp : url.Parse key with
        | error e => left; simp [Service.Fetch, hk, hc, hp]
        | ok u =>
          by_cases hs : u.Scheme = []
          · left; simp [Service.Fetch, hk, hc, hp, hs]
          · cases hb : sv.confidants u.Scheme with
            | none => left; simp [Service.Fetch, hk, hc, hp, hs, hb]
            | some c2 =>
              right
              refine ⟨c2, u, ?_, ?_⟩
              · intro heq
                rw [heq] at hb
                rcases hbound u.Scheme hb with h0 | h0
                · exact hs h0
                · rw [(hlow u hp).2] at h0
                  cases h0
              · simp only [Service.Fetch, hk, hc, hp, hs, hb, if_false, Bool.not_true,
                  Bool.false_eq_true]
                cases (callFetch c2 ctx u w).1.2 <;> rfl
      · left
        have hc2 : Contains key (str "://") = false := by simpa using hc
        simp [Service.Fetch, hk, hc2]

/-- C24, on a service whose only confidant is bound under "MOCK": the keys
"MOCK://x" and "mock://x" are both looked up under "mock", and the confidant is
not invoked. -/
theorem Fetch_lookup_lowercase_witness :
    url.Parse (str "MOCK://x") = .ok { Scheme := str "mock", Host := str "x" } ∧
      hasUpper (str "mock") = false ∧ hasUpper (str "MOCK") = true ∧
      (∀ k, upperMockService.confidants k = some upperMockConfidant →
        k = [] ∨ hasUpper k = true) ∧
      upperMockService.Fetch url.Parse {} (str "MOCK://x") (World.init 0) =
        ((none, some Error.ErrSchemeUnknown), World.init 0) ∧
      upperMockService.Fetch url.Parse {} (str "mock://x") (World.init 0) =
        ((none, some Error.ErrSchemeUnknown), World.init 0) ∧
      ((upperMockService.Fetch url.Parse {} (str "MOCK://x") (World.init 0)).2 = World.init 0 ∨
        ∃ c2 u, c2 ≠ upperMockConfidant ∧
          (upperMockService.Fetch url.Parse {} (str "MOCK://x") (World.init 0)).2 =
            (callFetch c2 {} u (World.init 0)).2) :=
  have hb : ∀ k, upperMockService.confidants k = some upperMockConfidant →
      k = [] ∨ hasUpper k = true := by
    intro k hk
    have hdef : upperMockService.confidants k =
        if k = str "MOCK" then some upperMockConfidant else none := rfl
    rw [hdef] at hk
    by_cases h : k = str "MOCK"
    · right
      rw [h]
      decide
    · rw [if_neg h] at hk
      cases hk
  ⟨by decide, by decide, by decide, hb, rfl, rfl,
    (Fetch_lookup_lowercase upperMockService {} (str "MOCK://x") (World.init 0)).2.2
      upperMockConfidant hb⟩

/-! ## Fetch and the registry, on the heap -/

/-- The heap after `Fetch`: the heap before, unless the key is routed to a
confidant, and then the heap that the one invocation of that confidant leaves. -/
theorem FetchOnHeap_heap {W : Type} (parse : GoString → Except Error URL)
    (objects : Nat → Object W) (ctx : Context) (key : GoString) (h : Heap W) :
    ((key = [] ∨ Contains key (str "://") = false ∨ (∃ e, parse key = .error e) ∨
        (∃ u, parse key = .ok u ∧ (u.Scheme = [] ∨ h.confidants u.Scheme = none))) →
      (FetchOnHeap parse objects ctx key h).2 = h) ∧
    (∀ u c, key ≠ [] → Contains key (str "://") = true → parse key = .ok u → u.Scheme ≠ [] →
      h.confidants u.Scheme = some c →
      (FetchOnHeap parse objects ctx key h).2 = ((objects c).Fetch ctx u h).2) := by
  constructor
  · intro hcase
    by_cases hk : key = []
    · simp [FetchOnHeap, hk]
    · by_cases hc : Contains key (str "://") = true
      · cases hp : parse key with
        | error e => simp [FetchOnHeap, hk, hc, hp]
        | ok u =>
          by_cases hs : u.Scheme = []
          · simp [FetchOnHeap, hk, hc, hp, hs]
          · cases hb : h.confidants u.Scheme with
            | none => simp [FetchOnHeap, hk, hc, hp, hs, hb]
            | some c =>
              exfalso
              rcases hcase with h1 | h1 | ⟨e, h1⟩ | ⟨u2, h1, h2⟩
              · exact hk h1
              · rw [hc] at h1; cases h1
              · rw [hp] at h1; cases h1
              · rw [hp] at h1
                cases h1
                rcases h2 with h2 | h2
                · exact hs h2
                · rw [hb] at h2; cases h2
      · have hc2 : Contains key (str "://") = false := by simpa using hc
        simp [FetchOnHeap, hk, hc2]
  · intro u c hk hc hp hs hb
    simp only [FetchOnHeap, hk, hc, hp, hs, hb, if_false, Bool.not_true, Bool.false_eq_true]
    cases ((objects c).Fetch ctx u h).1.2 <;> rfl

/-- The two embeddings of `Fetch` agree on confidants that act on the world
only: the same result, the same world afterwards, and the map as it was. -/
theorem FetchOnHeap_ofConfidant {W : Type} (parse : GoString → Except Error URL)
    (confs : Nat → Confidant W) (ctx : Context) (key : GoString) (h : Heap W)
    (calls : List (Call W)) :
    (FetchOnHeap parse (fun n => Object.ofConfidant (confs n)) ctx key h).1 =
        (Service.Fetch parse ⟨fun k => (h.confidants k).map confs⟩ ctx key
          ⟨h.world, calls⟩).1 ∧
      (FetchOnHeap parse (fun n => Object.ofConfidant (confs n)) ctx key h).2.world =
        (Service.Fetch parse ⟨fun k => (h.confidants k).map confs⟩ ctx key
          ⟨h.world, calls⟩).2.state ∧
      (FetchOnHeap parse (fun n => Object.ofConfidant (confs n)) ctx key h).2.confidants =
        h.confidants := by
  by_cases hk : key = []
  · simp [FetchOnHeap, Service.Fetch, hk]
  · by_cases hc : Contains key (str "://") = true
    · cases hp : parse key with
      | error e => simp [FetchOnHeap, Service.Fetch, hk, hc, hp]
      | ok u =>
        by_cases hs : u.Scheme = []
        · simp [FetchOnHeap, Service.Fetch, hk, hc, hp, hs]
        · cases hb : h.confidants u.Scheme with
          | none => simp [FetchOnHeap, Service.Fetch, hk, hc, hp, hs, hb]
          | some c =>
            simp only [FetchOnHeap, Service.Fetch, hk, hc, hp, hs, hb, if_false, Bool.not_true,
              Bool.false_eq_true, Option.map_some', Object.ofConfidant, callFetch]
            cases ((confs c).Fetch ctx u h.world).1.2 <;> exact ⟨rfl, rfl, rfl⟩
    · have hc2 : Contains key (str "://") = false := by simpa using hc
      simp [FetchOnHeap, Service.Fetch, hk, hc2]

/-- C11 fails as stated.  A confidant that holds the service and registers the
mock confidant from inside its `Fetch` is bound under "re"; `Fetch` of "re://x"
returns its "done", and afterwards "mock" is bound although it was not before:
the map after `Fetch` is not the map before. -/
theorem Fetch_registry_counterexample :
    reentrantHeap.confidants (str "re") = some 0 ∧
      reentrantHeap.confidants (str "mock") = none ∧
      url.Parse (str "re://x") = .ok { Scheme := str "re", Host := str "x" } ∧
      (FetchOnHeap url.Parse heapObjects {} (str "re://x") reentrantHeap).1 =
        (some (str "done"), none) ∧
      (FetchOnHeap url.Parse heapObjects {} (str "re://x") reentrantHeap).2.confidants
        (str "mock") = some 1 ∧
      (FetchOnHeap url.Parse heapObjects {} (str "re://x") reentrantHeap).2.confidants ≠
        reentrantHeap.confidants := by
  refine ⟨by decide, by decide, by decide, by decide, by decide, ?_⟩
  intro heq
  have h1 := congrFun heq (str "mock")
  revert h1
  decide

/-- C11, amended: `Fetch` itself never writes the map of the service.  After
`Fetch` the heap is the heap before, or the key is routed to a confidant and the
heap is the one that the invocation of this confidant leaves.  So the map after
`Fetch` is the map before for every key that is not routed to a confidant
(empty, literal, invalid URL, unknown scheme); for every key when no confidant
changes the map in its own `Fetch`, also over two calls in a row; and for every
key on confidants that act on the world outside the service, as the five of the
repository do.  Two calls in a row for a literal key return the same bytes, the
bytes of the key. -/
theorem Fetch_frame {W : Type} (parse : GoString → Except Error URL)
    (objects : Nat → Object W) (ctx : Context) (key : GoString) (h : Heap W) :
    ((FetchOnHeap parse objects ctx key h).2 = h ∨
        ∃ u c, key ≠ [] ∧ Contains key (str "://") = true ∧ parse key = .ok u ∧
          u.Scheme ≠ [] ∧ h.confidants u.Scheme = some c ∧
          (FetchOnHeap parse objects ctx key h).2 = ((objects c).Fetch ctx u h).2) ∧
      ((key = [] ∨ Contains key (str "://") = false ∨ (∃ e, parse key = .error e) ∨
          (∃ u, parse key = .ok u ∧ (u.Scheme = [] ∨ h.confidants u.Scheme = none))) →
        (FetchOnHeap parse objects ctx key h).2 = h) ∧
      ((∀ c ctx2 u h2, ((objects c).Fetch ctx2 u h2).2.confidants = h2.confidants) →
        (FetchOnHeap parse objects ctx key h).2.confidants = h.confidants ∧
        (FetchOnHeap parse objects ctx key
          (FetchOnHeap parse objects ctx key h).2).2.confidants = h.confidants) ∧
      (∀ confs : Nat → Confidant W,
        (FetchOnHeap parse (fun n => Object.ofConfidant (confs n)) ctx key h).2.confidants =
          h.confidants) ∧
      (key ≠ [] → Contains key (str "://") = false →
        (FetchOnHeap parse objects ctx key h).1 = (some key, none) ∧
        (FetchOnHeap parse objects ctx key (FetchOnHeap parse objects ctx key h).2).1 =
          (FetchOnHeap parse objects ctx key h).1) := by
  have hframe : ∀ (h0 : Heap W),
      (FetchOnHeap parse objects ctx key h0).2 = h0 ∨
        ∃ u c, key ≠ [] ∧ Contains key (str "://") = true ∧ parse key = .ok u ∧
          u.Scheme ≠ [] ∧ h0.confidants u.Scheme = some c ∧
          (FetchOnHeap parse objects ctx key h0).2 = ((objects c).Fetch ctx u h0).2 := by
    intro h0
    by_cases hk : key = []
    · left; exact (FetchOnHeap_heap parse objects ctx key h0).1 (Or.inl hk)
    · by_cases hc : Contains key (str "://") = true
      · cases hp : parse key with
        | error e =>
          left
          exact (FetchOnHeap_heap parse objects ctx key h0).1 (Or.inr (Or.inr (Or.inl ⟨e, hp⟩)))
        | ok u =>
          by_cases hs : u.Scheme = []
          · left
            exact (FetchOnHeap_heap parse objects ctx key h0).1
              (Or.inr (Or.inr (Or.inr ⟨u, hp, Or.inl hs⟩)))
          · cases hb : h0.confidants u.Scheme with
            | none =>
              left
              exact (FetchOnHeap_heap parse objects ctx key h0).1
                (Or.inr (Or.inr (Or.inr ⟨u, hp, Or.inr hb⟩)))
            | some c =>
              right
              exact ⟨u, c, hk, hc, rfl, hs, hb,
                (FetchOnHeap_heap parse objects ctx key h0).2 u c hk hc hp hs hb⟩
      · left
        have hc2 : Contains key (str "://") = false := by simpa using hc
        exact (FetchOnHeap_heap parse objects ctx key h0).1 (Or.inr (Or.inl hc2))
  have hkeep : (∀ c ctx2 u h2, ((objects c).Fetch ctx2 u h2).2.confidants = h2.confidants) →
      ∀ h0 : Heap W, (FetchOnHeap parse objects ctx key h0).2.confidants = h0.confidants := by
    intro hobj h0
    rcases hframe h0 with h1 | ⟨u, c, _, _, _, _, _, h1⟩
    · rw [h1]
    · rw [h1]; exact hobj c ctx u h0
  refine ⟨hframe h, (FetchOnHeap_heap parse objects ctx key h).1, ?_, ?_, ?_⟩
  · intro hobj
    refine ⟨hkeep hobj h, ?_⟩
    rw [hkeep hobj, hkeep hobj]
  · intro confs
    exact (FetchOnHeap_ofConfidant parse confs ctx key h []).2.2
  · intro hk hc
    simp [FetchOnHeap, hk, hc]

/-- C11 amended, on the heap where the re-entrant confidant is registered.  The
literal key "foo": the heap is as it was and two calls in a row return "foo".
The key "nomock://x", which is not routed: the heap is as it was.  And on the
heap where only the mock confidant is registered, "mock://x" leaves the map as
it was. -/
theorem Fetch_frame_witness :
    str "foo" ≠ [] ∧ Contains (str "foo") (str "://") = false ∧
      (FetchOnHeap url.Parse heapObjects {} (str "foo") reentrantHeap).2.confidants =
        reentrantHeap.confidants ∧
      (FetchOnHeap url.Parse heapObjects {} (str "foo") reentrantHeap).1 =
        (some (str "foo"), none) ∧
      (FetchOnHeap url.Parse heapObjects {} (str "foo")
        (FetchOnHeap url.Parse heapObjects {} (str "foo") reentrantHeap).2).1 =
        (FetchOnHeap url.Parse heapObjects {} (str "foo") reentrantHeap).1 ∧
      url.Parse (str "nomock://x") = .ok { Scheme := str "nomock", Host := str "x" } ∧
      reentrantHeap.confidants (str "nomock") = none ∧
      (FetchOnHeap url.Parse heapObjects {} (str "nomock://x") reentrantHeap).2.confidants =
        reentrantHeap.confidants ∧
      helloHeap.confidants (str "mock") = some 1 ∧
      (FetchOnHeap url.Parse (fun _ => Object.ofConfidant (MockConfidant Nat)) {}
        (str "mock://x") helloHeap).2.confidants = helloHeap.confidants :=
  have h1 := Fetch_frame url.Parse heapObjects {} (str "foo") reentrantHeap
  have h2 := Fetch_frame url.Parse heapObjects {} (str "nomock://x") reentrantHeap
  have h3 := Fetch_frame url.Parse heapObjects {} (str "mock://x") helloHeap
  ⟨by decide, by decide,
    congrArg Heap.confidants (h1.2.1 (Or.inr (Or.inl (by decide)))),
    (h1.2.2.2.2 (by decide) (by decide)).1, (h1.2.2.2.2 (by decide) (by decide)).2,
    by decide, by decide,
    congrArg Heap.confidants (h2.2.1 (Or.inr (Or.inr (Or.inr
      ⟨{ Scheme := str "nomock", Host := str "x" }, by decide, Or.inr (by decide)⟩)))),
    by decide, h3.2.2.2.1 (fun _ => MockConfidant Nat)⟩

end Majordomo
